import Mathlib

/-!
# Text_Import (libharu demo): pagination and layout of a code-point sheet

A shallow embedding of `Text_Import/src/Application.cpp`.

* `load_all_unicode_characters` is the code-point enumerator (a `uint32_t` counting loop).
* `main` drives the document backend: set-up, one page per `chars_per_page` characters,
  one begin/paint/end triple per character, then save and release.

Modelling conventions.

* `uint32_t` and `size_t` values are natural numbers; every operation that can wrap is
  written with an explicit `% 2 ^ 32` or `% 2 ^ 64` (`size_t` is taken to be 64 bits wide).
* The `float` layout quantities are rationals, i.e. the coordinate formulas are read over
  exact arithmetic.  For the constants of the program every intermediate value is an
  integer below `2 ^ 24`, which `float` represents exactly.
* The backend (libharu) and the text converter (`std::wstring_convert`) are external.  A run
  is taken relative to an environment `Env` which fixes the result of every call whose
  result `main` inspects, and the result of every conversion.  `main` produces the list of
  backend calls it issues, in order, and how it ends.  Console output is not modelled.
-/

namespace TextImport

/-! ## Code-point enumerator -/

/-- The loop `for (uint32_t ch = low; ch <= high; ++ch) characters.push_back(ch);` with the
bounds as parameters.  `++ch` wraps modulo `2 ^ 32`.  The first argument bounds the number
of loop tests; `none` means the bound was reached before the loop test failed. -/
def enumerate_loop (high : Nat) : Nat → Nat → List Nat → Option (List Nat)
  | 0, _, _ => none
  | fuel + 1, ch, characters =>
    if ch ≤ high then
      enumerate_loop high fuel ((ch + 1) % 2 ^ 32) (characters ++ [ch])
    else
      some characters

/-- The enumerator over `[low, high]`: the loop started at `ch = low` with an empty vector. -/
def enumerate (fuel low high : Nat) : Option (List Nat) :=
  enumerate_loop high fuel low []

/-- The loop of `load_all_unicode_characters` (bounds `0x0000` and `0xFFFF`), as a total
function: the distance of `ch` to `0x10000` decreases at every iteration. -/
def load_loop (ch : Nat) (characters : List Nat) : List Nat :=
  if h : ch ≤ 0xFFFF then
    load_loop ((ch + 1) % 2 ^ 32) (characters ++ [ch])
  else
    characters
termination_by 0x10000 - ch
decreasing_by
  have h1 : (ch + 1) % 2 ^ 32 = ch + 1 := Nat.mod_eq_of_lt (by omega)
  omega

/-- `std::vector<uint32_t> load_all_unicode_characters()`. -/
def load_all_unicode_characters : List Nat :=
  load_loop 0x0000 []

/-! ## Layout constants -/

/-- The layout constants of the program, as a record. -/
structure Layout where
  chars_per_page : Nat
  chars_per_line : Nat
  page_width : ℚ
  page_height : ℚ
  margin_left : ℚ
  margin_top : ℚ
  char_width : ℚ
  line_height : ℚ

/-- The values of the `constexpr` definitions of the program. -/
def constants : Layout where
  chars_per_page := 200
  chars_per_line := 10
  page_width := 595
  page_height := 842
  margin_left := 50
  margin_top := 50
  char_width := 50
  line_height := 20

/-- `num_pages = (characters.size() + chars_per_page - 1) / chars_per_page` in `size_t`
arithmetic, for `N = characters.size()` and `P = chars_per_page`. -/
def num_pages (N P : Nat) : Nat :=
  ((N + P - 1) % 2 ^ 64) / P

/-- `char_idx = page_idx * chars_per_page + i` in `size_t` arithmetic. -/
def char_idx (P page_idx i : Nat) : Nat :=
  (page_idx * P + i) % 2 ^ 64

/-- The grid cell of the within-page index `i`:
`line = i / chars_per_line`, `col = i % chars_per_line`. -/
def cell (L : Layout) (i : Nat) : Nat × Nat :=
  (i / L.chars_per_line, i % L.chars_per_line)

/-- The horizontal coordinate `x = margin_left + col * char_width`. -/
def x_of (L : Layout) (col : Nat) : ℚ :=
  L.margin_left + (col : ℚ) * L.char_width

/-- The vertical coordinate `y = page_height - margin_top - line * line_height`. -/
def y_of (L : Layout) (line : Nat) : ℚ :=
  L.page_height - L.margin_top - (line : ℚ) * L.line_height

/-! ## Backend calls and runs -/

/-- One call to the backend, with the result of the call where `main` inspects it.
A page handle is the ordinal of the `HPDF_AddPage` call that returned it. -/
inductive Call where
  | New (ok : Bool)
  | LoadTTFontFromFile (ok : Bool)
  | GetFont (ok : Bool)
  | AddPage (page : Nat) (ok : Bool)
  | Page_SetFontAndSize (page : Nat) (size : ℚ)
  | Page_SetWidth (page : Nat) (value : ℚ)
  | Page_SetHeight (page : Nat) (value : ℚ)
  | Page_BeginText (page : Nat)
  | Page_TextOut (page : Nat) (x y : ℚ) (text : List Nat)
  | Page_EndText (page : Nat)
  | SaveToFile (ok : Bool)
  | Free
  deriving DecidableEq, Repr

/-- The environment of one run.  `addpage_ok k` is the result of the call of `HPDF_AddPage`
for page index `k`.  `to_bytes ch` is the `std::string` (a list of bytes) obtained from
`converter.to_bytes(std::wstring(1, static_cast<wchar_t>(ch)))`, or `none` when the
conversion fails, in which case `to_bytes` throws `std::range_error` (the converter is
default-constructed, without an error string). -/
structure Env where
  new_ok : Bool
  load_ok : Bool
  getfont_ok : Bool
  addpage_ok : Nat → Bool
  save_ok : Bool
  to_bytes : Nat → Option (List Nat)

/-- How a run of `main` ends: with a `return`, or with an exception leaving `main`
(there is no handler, so the process is terminated). -/
inductive Outcome where
  | returned (code : Int)
  | uncaught
  deriving DecidableEq, Repr

/-- The result of a run: the backend calls in the order issued, and the outcome. -/
structure Run where
  trace : List Call
  outcome : Outcome
  deriving DecidableEq, Repr

/-- How the page loop is left. -/
inductive Flow where
  | completed
  | page_failed
  | thrown
  deriving DecidableEq, Repr

/-- The inner loop `for (size_t i = 0; i < chars_per_page; ++i)` for one page, entered at
index `i` with `remaining = chars_per_page - i` iterations to go.  Returns the calls issued
and whether the conversion threw. -/
def text_loop (env : Env) (L : Layout) (characters : List Nat) (page_idx : Nat) :
    Nat → Nat → List Call × Bool
  | 0, _ => ([], false)
  | remaining + 1, i =>
    if char_idx L.chars_per_page page_idx i ≥ characters.length then
      ([], false)
    else
      let ch := characters.getD (char_idx L.chars_per_page page_idx i) 0
      match env.to_bytes ch with
      | none => ([], true)
      | some s =>
        let line := (cell L i).1
        let col := (cell L i).2
        let x := x_of L col
        let y := y_of L line
        let rest := text_loop env L characters page_idx remaining (i + 1)
        (Call.Page_BeginText page_idx :: Call.Page_TextOut page_idx x y s ::
          Call.Page_EndText page_idx :: rest.1, rest.2)

/-- The outer loop `for (size_t page_idx = 0; page_idx < num_pages; ++page_idx)`, entered at
`page_idx` with `remaining = num_pages - page_idx` iterations to go.  The failure branch
includes the `HPDF_Free` that precedes `return 1`. -/
def page_loop (env : Env) (L : Layout) (characters : List Nat) :
    Nat → Nat → List Call × Flow
  | 0, _ => ([], Flow.completed)
  | remaining + 1, page_idx =>
    if env.addpage_ok page_idx then
      let texts := text_loop env L characters page_idx L.chars_per_page 0
      let head := [Call.AddPage page_idx true, Call.Page_SetFontAndSize page_idx 12,
        Call.Page_SetWidth page_idx L.page_width, Call.Page_SetHeight page_idx L.page_height]
      if texts.2 then
        (head ++ texts.1, Flow.thrown)
      else
        let rest := page_loop env L characters remaining (page_idx + 1)
        (head ++ texts.1 ++ rest.1, rest.2)
    else
      ([Call.AddPage page_idx false, Call.Free], Flow.page_failed)

/-- The body of `main` for an arbitrary layout record and an arbitrary vector `characters`. -/
def main_with (L : Layout) (characters : List Nat) (env : Env) : Run :=
  if env.new_ok = false then
    ⟨[Call.New false], Outcome.returned 1⟩
  else if env.load_ok = false then
    ⟨[Call.New true, Call.LoadTTFontFromFile false, Call.Free], Outcome.returned 1⟩
  else if env.getfont_ok = false then
    ⟨[Call.New true, Call.LoadTTFontFromFile true, Call.GetFont false, Call.Free],
      Outcome.returned 1⟩
  else
    let setup := [Call.New true, Call.LoadTTFontFromFile true, Call.GetFont true]
    let pages := page_loop env L characters (num_pages characters.length L.chars_per_page) 0
    match pages.2 with
    | Flow.thrown => ⟨setup ++ pages.1, Outcome.uncaught⟩
    | Flow.page_failed => ⟨setup ++ pages.1, Outcome.returned 1⟩
    | Flow.completed =>
      if env.save_ok then
        ⟨setup ++ pages.1 ++ [Call.SaveToFile true, Call.Free], Outcome.returned 0⟩
      else
        ⟨setup ++ pages.1 ++ [Call.SaveToFile false, Call.Free], Outcome.returned 1⟩

/-- The program: `main` with its constants and its enumerator. -/
def main (env : Env) : Run :=
  main_with constants load_all_unicode_characters env

/-! ## Reference trace and observations on traces -/

/-- The calls that open a page: a successful `HPDF_AddPage` and the three set-up calls. -/
def page_setup (L : Layout) (page_idx : Nat) : List Call :=
  [Call.AddPage page_idx true, Call.Page_SetFontAndSize page_idx 12,
    Call.Page_SetWidth page_idx L.page_width, Call.Page_SetHeight page_idx L.page_height]

/-- The begin / paint / end triple for the within-page index `i` and the text `s`. -/
def paint (L : Layout) (page_idx i : Nat) (s : List Nat) : List Call :=
  [Call.Page_BeginText page_idx,
    Call.Page_TextOut page_idx (x_of L (cell L i).2) (y_of L (cell L i).1) s,
    Call.Page_EndText page_idx]

/-- The text of a code point in the environment (empty where the conversion fails). -/
def text_of (env : Env) (ch : Nat) : List Nat :=
  (env.to_bytes ch).getD []

/-- The paint triples of the within-page indices `i, i + 1, .., i + count - 1` of a page. -/
def paints (env : Env) (L : Layout) (characters : List Nat) (page_idx i count : Nat) :
    List Call :=
  (List.range' i count).flatMap (fun j =>
    paint L page_idx j (text_of env (characters.getD (page_idx * L.chars_per_page + j) 0)))

/-- Reference trace of one page: the page set-up, then one paint triple for each within-page
index `i < chars_per_page` with `page_idx * chars_per_page + i < N`, in ascending order. -/
def reference_page (env : Env) (L : Layout) (characters : List Nat) (page_idx : Nat) :
    List Call :=
  page_setup L page_idx ++
    ((List.range L.chars_per_page).filter
      (fun i => decide (page_idx * L.chars_per_page + i < characters.length))).flatMap
      (fun i => paint L page_idx i
        (text_of env (characters.getD (page_idx * L.chars_per_page + i) 0)))

/-- Reference trace of the page loop followed by the save: the pages `0 .. num_pages - 1` in
order, then one `HPDF_SaveToFile`. -/
def reference_pages_and_save (env : Env) (L : Layout) (characters : List Nat) : List Call :=
  (List.range (num_pages characters.length L.chars_per_page)).flatMap
      (reference_page env L characters) ++
    [Call.SaveToFile true]

/-- One complete page in closed form: the page set-up, then the paint triples of the
within-page indices `0 .. min chars_per_page (N - page_idx * chars_per_page) - 1`. -/
def full_page (env : Env) (L : Layout) (characters : List Nat) (page_idx : Nat) : List Call :=
  page_setup L page_idx ++
    paints env L characters page_idx 0
      (min L.chars_per_page (characters.length - page_idx * L.chars_per_page))

/-- The texts painted by a trace, in trace order. -/
def painted_texts (t : List Call) : List (List Nat) :=
  t.filterMap (fun c =>
    match c with
    | Call.Page_TextOut _ _ _ s => some s
    | _ => none)

/-- The positions `(x, y)` painted on the page `page` by a trace, in trace order. -/
def positions_on (page : Nat) (t : List Call) : List (ℚ × ℚ) :=
  t.filterMap (fun c =>
    match c with
    | Call.Page_TextOut p x y _ => if p = page then some (x, y) else none
    | _ => none)

/-- The calls whose failure `main` detects, with a failing result. -/
def is_failure (c : Call) : Bool :=
  match c with
  | Call.New false => true
  | Call.LoadTTFontFromFile false => true
  | Call.GetFont false => true
  | Call.AddPage _ false => true
  | Call.SaveToFile false => true
  | _ => false

/-- The calls of a page that is being filled: a successful page creation, page set-up,
begin / paint / end. -/
def is_page_call (c : Call) : Bool :=
  match c with
  | Call.AddPage _ true => true
  | Call.Page_SetFontAndSize _ _ => true
  | Call.Page_SetWidth _ _ => true
  | Call.Page_SetHeight _ _ => true
  | Call.Page_BeginText _ => true
  | Call.Page_TextOut _ _ _ _ => true
  | Call.Page_EndText _ => true
  | _ => false

/-- The calls of the inner loop: begin / paint / end on the page `page`. -/
def is_text_call (page : Nat) (c : Call) : Bool :=
  match c with
  | Call.Page_BeginText p => decide (p = page)
  | Call.Page_TextOut p _ _ _ => decide (p = page)
  | Call.Page_EndText p => decide (p = page)
  | _ => false

/-- UTF-8 bytes of a code point below `0x10000`. -/
def utf8_encode (ch : Nat) : List Nat :=
  if ch < 0x80 then [ch]
  else if ch < 0x800 then [0xC0 + ch / 64, 0x80 + ch % 64]
  else [0xE0 + ch / 4096, 0x80 + ch / 64 % 64, 0x80 + ch % 64]

/-- A sample environment in which every backend call succeeds and every code point is
converted. -/
def ok_env : Env where
  new_ok := true
  load_ok := true
  getfont_ok := true
  addpage_ok := fun _ => true
  save_ok := true
  to_bytes := fun ch => some (utf8_encode ch)

/-- A sample environment in which every backend call succeeds and the conversion fails
exactly on the surrogate code points `0xD800 .. 0xDFFF`. -/
def strict_env : Env where
  new_ok := true
  load_ok := true
  getfont_ok := true
  addpage_ok := fun _ => true
  save_ok := true
  to_bytes := fun ch => if 0xD800 ≤ ch ∧ ch ≤ 0xDFFF then none else some (utf8_encode ch)

/-- A sample environment in which set-up succeeds and `HPDF_AddPage` fails for page `k`. -/
def page_fail_env (k : Nat) : Env where
  new_ok := true
  load_ok := true
  getfont_ok := true
  addpage_ok := fun j => decide (j ≠ k)
  save_ok := true
  to_bytes := fun ch => some (utf8_encode ch)

/-- The layout of the two-page scenario: `chars_per_page = 10`, `chars_per_line = 5`, the
other constants as in the program. -/
def scenario_layout : Layout :=
  { constants with chars_per_page := 10, chars_per_line := 5 }

/-! ## The enumerator -/

theorem enumerate_loop_eq (high : Nat) (hhigh : high < 2 ^ 32 - 1) :
    ∀ (fuel ch : Nat) (acc : List Nat), 0 < fuel → high + 2 ≤ fuel + ch →
      enumerate_loop high fuel ch acc = some (acc ++ List.range' ch (high + 1 - ch)) := by
  intro fuel
  induction fuel with
  | zero => intro ch acc h0; omega
  | succ fuel ih =>
    intro ch acc _ hf
    unfold enumerate_loop
    by_cases hle : ch ≤ high
    · have hwrap : (ch + 1) % 2 ^ 32 = ch + 1 := Nat.mod_eq_of_lt (by omega)
      have hlen : high + 1 - ch = (high + 1 - (ch + 1)) + 1 := by omega
      rw [if_pos hle, hwrap, ih (ch + 1) (acc ++ [ch]) (by omega) (by omega), hlen,
        List.range'_succ]
      simp
    · have hlen : high + 1 - ch = 0 := by omega
      rw [if_neg hle, hlen]
      simp

theorem load_loop_eq : ∀ (n ch : Nat) (acc : List Nat), 0x10000 - ch = n →
    load_loop ch acc = acc ++ List.range' ch (0x10000 - ch) := by
  intro n
  induction n with
  | zero =>
    intro ch acc hn
    rw [load_loop, dif_neg (by omega), hn]
    simp
  | succ n ih =>
    intro ch acc hn
    have hwrap : (ch + 1) % 2 ^ 32 = ch + 1 := Nat.mod_eq_of_lt (by omega)
    have hlen : 0x10000 - ch = (0x10000 - (ch + 1)) + 1 := by omega
    rw [load_loop, dif_pos (by omega), hwrap, ih (ch + 1) (acc ++ [ch]) (by omega), hlen,
      List.range'_succ]
    simp

theorem load_all_unicode_characters_eq : load_all_unicode_characters = List.range 65536 := by
  rw [load_all_unicode_characters, load_loop_eq _ 0 [] rfl, List.range_eq_range']
  simp

theorem load_all_unicode_characters_length : load_all_unicode_characters.length = 65536 := by
  rw [load_all_unicode_characters_eq, List.length_range]

theorem enumerate_eq (fuel low high : Nat) (hhigh : high < 2 ^ 32 - 1)
    (hpos : 0 < fuel) (hfuel : high + 2 ≤ fuel + low) :
    enumerate fuel low high = some (List.range' low (high + 1 - low)) := by
  rw [enumerate, enumerate_loop_eq high hhigh fuel low [] hpos hfuel]
  simp

/-! ## Page count arithmetic -/

theorem num_pages_eq (N P : Nat) (hov : N + P - 1 < 2 ^ 64) :
    num_pages N P = (N + P - 1) / P := by
  rw [num_pages, Nat.mod_eq_of_lt hov]

theorem num_pages_bounds (N P : Nat) (hP : 1 ≤ P) (hov : N + P - 1 < 2 ^ 64) :
    N ≤ num_pages N P * P ∧ num_pages N P * P < N + P := by
  rw [num_pages_eq N P hov]
  have h1 := Nat.div_mul_le_self (N + P - 1) P
  have h2 := Nat.lt_div_mul_add (a := N + P - 1) (b := P) (by omega)
  omega

theorem num_pages_ceil (N P : Nat) (hN : 1 ≤ N) (hP : 1 ≤ P) (hov : N + P - 1 < 2 ^ 64) :
    num_pages N P = ⌈(N : ℚ) / (P : ℚ)⌉₊ := by
  obtain ⟨h1, h2⟩ := num_pages_bounds N P hP hov
  have hPq : (0 : ℚ) < (P : ℚ) := by exact_mod_cast hP
  have hn : num_pages N P ≠ 0 := by
    intro h0
    rw [h0] at h1
    omega
  symm
  rw [Nat.ceil_eq_iff hn]
  constructor
  · rw [lt_div_iff₀ hPq]
    have h3 : (num_pages N P - 1) * P < N := by
      have : (num_pages N P - 1) * P = num_pages N P * P - P := by
        rw [Nat.sub_mul, Nat.one_mul]
      omega
    exact_mod_cast h3
  · rw [div_le_iff₀ hPq]
    exact_mod_cast h1

theorem last_page_count (N P : Nat) (hN : 1 ≤ N) (hP : 1 ≤ P) (hov : N + P - 1 < 2 ^ 64) :
    1 ≤ num_pages N P ∧
    1 ≤ N - (num_pages N P - 1) * P ∧ N - (num_pages N P - 1) * P ≤ P ∧
    (N % P = 0 → N - (num_pages N P - 1) * P = P) ∧
    (N % P ≠ 0 → N - (num_pages N P - 1) * P = N % P) := by
  obtain ⟨h1, h2⟩ := num_pages_bounds N P hP hov
  have hn : 1 ≤ num_pages N P := by
    by_contra h0
    have : num_pages N P = 0 := by omega
    rw [this] at h1
    omega
  have h3 : (num_pages N P - 1) * P = num_pages N P * P - P := by
    rw [Nat.sub_mul, Nat.one_mul]
  have h4 : P ≤ num_pages N P * P := Nat.le_mul_of_pos_left P (by omega)
  have hdm := Nat.div_add_mod N P
  have hml := Nat.mod_lt N (by omega : P > 0)
  refine ⟨hn, by omega, by omega, ?_, ?_⟩
  · intro h0
    -- N = P * (N / P), num_pages * P in [N, N + P) and multiple of P
    have hq : num_pages N P = N / P := by
      have ha : N / P * P = N := by rw [Nat.mul_comm]; omega
      have hle : N / P ≤ num_pages N P := by
        by_contra hc
        have : num_pages N P + 1 ≤ N / P := by omega
        have := Nat.mul_le_mul_right P this
        rw [Nat.add_mul, Nat.one_mul] at this
        omega
      have hge : num_pages N P ≤ N / P := by
        by_contra hc
        have : N / P + 1 ≤ num_pages N P := by omega
        have := Nat.mul_le_mul_right P this
        rw [Nat.add_mul, Nat.one_mul] at this
        omega
      omega
    rw [h3, hq]
    have ha : N / P * P = N := by rw [Nat.mul_comm]; omega
    have hPN : P ≤ N := Nat.le_of_dvd (by omega) (Nat.dvd_of_mod_eq_zero h0)
    omega
  · intro h0
    have hq : num_pages N P = N / P + 1 := by
      have hle : N / P + 1 ≤ num_pages N P := by
        by_contra hc
        have : num_pages N P ≤ N / P := by omega
        have := Nat.mul_le_mul_right P this
        have hb : N / P * P = P * (N / P) := Nat.mul_comm _ _
        omega
      have hge : num_pages N P ≤ N / P + 1 := by
        by_contra hc
        have : N / P + 2 ≤ num_pages N P := by omega
        have := Nat.mul_le_mul_right P this
        rw [Nat.add_mul] at this
        have hb : N / P * P = P * (N / P) := Nat.mul_comm _ _
        omega
      omega
    rw [h3, hq, Nat.add_mul, Nat.one_mul]
    have hb : N / P * P = P * (N / P) := Nat.mul_comm _ _
    omega

/-! ## The inner loop -/

theorem paints_zero (env : Env) (L : Layout) (characters : List Nat) (p i : Nat) :
    paints env L characters p i 0 = [] := by
  simp [paints]

theorem paints_succ (env : Env) (L : Layout) (characters : List Nat) (p i n : Nat) :
    paints env L characters p i (n + 1) =
      paint L p i (text_of env (characters.getD (p * L.chars_per_page + i) 0)) ++
        paints env L characters p (i + 1) n := by
  simp [paints, List.range'_succ]

theorem char_idx_eq (P p i : Nat) (h : p * P + i < 2 ^ 64) : char_idx P p i = p * P + i := by
  rw [char_idx, Nat.mod_eq_of_lt h]

/-- The inner loop when every conversion it performs succeeds. -/
theorem text_loop_ok (env : Env) (L : Layout) (characters : List Nat) (p : Nat) :
    ∀ (remaining i : Nat), p * L.chars_per_page + i + remaining ≤ 2 ^ 64 →
      (∀ j, i ≤ j → j < i + remaining → p * L.chars_per_page + j < characters.length →
        (env.to_bytes (characters.getD (p * L.chars_per_page + j) 0)).isSome = true) →
      text_loop env L characters p remaining i =
        (paints env L characters p i
          (min remaining (characters.length - (p * L.chars_per_page + i))), false) := by
  intro remaining
  induction remaining with
  | zero =>
    intro i _ _
    simp [text_loop, paints_zero]
  | succ remaining ih =>
    intro i hov hconv
    rw [text_loop, char_idx_eq _ _ _ (by omega)]
    by_cases hbreak : p * L.chars_per_page + i ≥ characters.length
    · have h0 : min (remaining + 1) (characters.length - (p * L.chars_per_page + i)) = 0 := by
        omega
      rw [if_pos hbreak, h0, paints_zero]
    · have hsome := hconv i (Nat.le_refl i) (by omega) (by omega)
      obtain ⟨s, hs⟩ := Option.isSome_iff_exists.mp hsome
      have hm : min (remaining + 1) (characters.length - (p * L.chars_per_page + i)) =
          min remaining (characters.length - (p * L.chars_per_page + (i + 1))) + 1 := by
        omega
      rw [if_neg hbreak, hm, paints_succ]
      simp only [hs]
      rw [ih (i + 1) (by omega) (fun j h1 h2 h3 => hconv j (by omega) (by omega) h3)]
      simp only [paint, text_of, hs, Option.getD_some, List.cons_append, List.nil_append]

/-- The inner loop when the conversion first fails at the within-page index `f`. -/
theorem text_loop_throw (env : Env) (L : Layout) (characters : List Nat) (p f : Nat)
    (hf : p * L.chars_per_page + f < characters.length)
    (hnone : env.to_bytes (characters.getD (p * L.chars_per_page + f) 0) = none) :
    ∀ (remaining i : Nat), p * L.chars_per_page + i + remaining ≤ 2 ^ 64 →
      i ≤ f → f < i + remaining →
      (∀ j, i ≤ j → j < f →
        (env.to_bytes (characters.getD (p * L.chars_per_page + j) 0)).isSome = true) →
      text_loop env L characters p remaining i =
        (paints env L characters p i (f - i), true) := by
  intro remaining
  induction remaining with
  | zero =>
    intro i _ h1 h2 _
    omega
  | succ remaining ih =>
    intro i hov h1 h2 hconv
    rw [text_loop, char_idx_eq _ _ _ (by omega)]
    have hbreak : ¬ (p * L.chars_per_page + i ≥ characters.length) := by omega
    rw [if_neg hbreak]
    by_cases hif : i = f
    · subst hif
      simp only [hnone]
      simp [paints_zero]
    · have hsome := hconv i (Nat.le_refl i) (by omega)
      obtain ⟨s, hs⟩ := Option.isSome_iff_exists.mp hsome
      have hm : f - i = (f - (i + 1)) + 1 := by omega
      rw [hm, paints_succ]
      simp only [hs]
      rw [ih (i + 1) (by omega) (by omega) (by omega)
        (fun j h1 h2 => hconv j (by omega) h2)]
      simp only [paint, text_of, hs, Option.getD_some, List.cons_append, List.nil_append]

/-- Every call of the inner loop is a begin / paint / end on its page. -/
theorem text_loop_calls (env : Env) (L : Layout) (characters : List Nat) (p : Nat) :
    ∀ (remaining i : Nat), ∀ c ∈ (text_loop env L characters p remaining i).1,
      is_text_call p c = true := by
  intro remaining
  induction remaining with
  | zero =>
    intro i c hc
    simp [text_loop] at hc
  | succ remaining ih =>
    intro i c hc
    rw [text_loop] at hc
    split at hc
    · simp at hc
    · dsimp only at hc
      split at hc
      · simp at hc
      · simp only [List.mem_cons] at hc
        rcases hc with h | h | h | h
        · subst h; simp [is_text_call]
        · subst h; simp [is_text_call]
        · subst h; simp [is_text_call]
        · exact ih (i + 1) c h

/-! ## The page loop -/

theorem page_loop_succ_ok (env : Env) (L : Layout) (characters : List Nat)
    (remaining p : Nat) (hadd : env.addpage_ok p = true)
    (htexts : (text_loop env L characters p L.chars_per_page 0).2 = false) :
    page_loop env L characters (remaining + 1) p =
      (page_setup L p ++ (text_loop env L characters p L.chars_per_page 0).1 ++
        (page_loop env L characters remaining (p + 1)).1,
        (page_loop env L characters remaining (p + 1)).2) := by
  simp [page_loop, hadd, htexts, page_setup]

theorem page_loop_succ_thrown (env : Env) (L : Layout) (characters : List Nat)
    (remaining p : Nat) (hadd : env.addpage_ok p = true)
    (htexts : (text_loop env L characters p L.chars_per_page 0).2 = true) :
    page_loop env L characters (remaining + 1) p =
      (page_setup L p ++ (text_loop env L characters p L.chars_per_page 0).1,
        Flow.thrown) := by
  simp [page_loop, hadd, htexts, page_setup]

theorem page_loop_succ_failed (env : Env) (L : Layout) (characters : List Nat)
    (remaining p : Nat) (hadd : env.addpage_ok p = false) :
    page_loop env L characters (remaining + 1) p =
      ([Call.AddPage p false, Call.Free], Flow.page_failed) := by
  simp [page_loop, hadd]

theorem succ_mul_le (p q P : Nat) (h : p + 1 ≤ q) : p * P + P ≤ q * P := by
  have := Nat.mul_le_mul_right P h
  rw [Nat.add_mul, Nat.one_mul] at this
  exact this

/-- The page loop when every page creation and every conversion succeeds. -/
theorem page_loop_ok (env : Env) (L : Layout) (characters : List Nat)
    (hconv : ∀ idx, idx < characters.length →
      (env.to_bytes (characters.getD idx 0)).isSome = true) :
    ∀ (remaining p : Nat), (p + remaining) * L.chars_per_page ≤ 2 ^ 64 →
      (∀ k, p ≤ k → k < p + remaining → env.addpage_ok k = true) →
      page_loop env L characters remaining p =
        ((List.range' p remaining).flatMap (full_page env L characters), Flow.completed) := by
  intro remaining
  induction remaining with
  | zero =>
    intro p _ _
    simp [page_loop]
  | succ remaining ih =>
    intro p hov hadd
    have hle := succ_mul_le p (p + (remaining + 1)) L.chars_per_page (by omega)
    have htl := text_loop_ok env L characters p L.chars_per_page 0 (by omega)
      (fun j _ _ h3 => hconv _ h3)
    rw [page_loop_succ_ok env L characters remaining p (hadd p (Nat.le_refl p) (by omega))
      (by rw [htl]), htl,
      ih (p + 1) (by rw [show p + 1 + remaining = p + (remaining + 1) by omega]; exact hov)
        (fun k h1 h2 => hadd k (by omega) (by omega))]
    simp [List.range'_succ, full_page]

/-- The page loop when the conversion first fails on page `q` at the within-page index
`f`. -/
theorem page_loop_throw (env : Env) (L : Layout) (characters : List Nat) (q f : Nat)
    (hfP : f < L.chars_per_page)
    (hf : q * L.chars_per_page + f < characters.length)
    (hnone : env.to_bytes (characters.getD (q * L.chars_per_page + f) 0) = none)
    (hconv : ∀ idx, idx < q * L.chars_per_page + f →
      (env.to_bytes (characters.getD idx 0)).isSome = true) :
    ∀ (remaining p : Nat), (p + remaining) * L.chars_per_page ≤ 2 ^ 64 →
      p ≤ q → q < p + remaining →
      (∀ k, p ≤ k → k ≤ q → env.addpage_ok k = true) →
      page_loop env L characters remaining p =
        ((List.range' p (q - p)).flatMap (full_page env L characters) ++
          (page_setup L q ++ paints env L characters q 0 f), Flow.thrown) := by
  intro remaining
  induction remaining with
  | zero =>
    intro p _ h1 h2 _
    omega
  | succ remaining ih =>
    intro p hov h1 h2 hadd
    have hle := succ_mul_le p (p + (remaining + 1)) L.chars_per_page (by omega)
    by_cases hpq : p = q
    · subst hpq
      have htl := text_loop_throw env L characters p f hf hnone L.chars_per_page 0
        (by omega) (by omega) (by omega) (fun j _ h3 => hconv _ (by omega))
      rw [page_loop_succ_thrown env L characters remaining p
        (hadd p (Nat.le_refl p) (Nat.le_refl p)) (by rw [htl]), htl]
      simp
    · have hle2 := succ_mul_le p q L.chars_per_page (by omega)
      have htl := text_loop_ok env L characters p L.chars_per_page 0 (by omega)
        (fun j _ h2 _ => hconv _ (by omega))
      have hm : q - p = (q - (p + 1)) + 1 := by omega
      rw [page_loop_succ_ok env L characters remaining p (hadd p (Nat.le_refl p) h1)
        (by rw [htl]), htl,
        ih (p + 1) (by rw [show p + 1 + remaining = p + (remaining + 1) by omega]; exact hov)
          (by omega) (by omega) (fun k h1 h2 => hadd k (by omega) h2), hm]
      simp [List.range'_succ, full_page]

/-! ## Shape of a run in an arbitrary environment -/

theorem is_page_call_of_text (p : Nat) (c : Call) (h : is_text_call p c = true) :
    is_page_call c = true := by
  cases c <;> simp [is_text_call] at h <;> simp [is_page_call]

theorem text_loop_page_calls (env : Env) (L : Layout) (characters : List Nat)
    (p remaining i : Nat) :
    ∀ c ∈ (text_loop env L characters p remaining i).1, is_page_call c = true :=
  fun c hc => is_page_call_of_text p c (text_loop_calls env L characters p remaining i c hc)

theorem page_setup_page_calls (L : Layout) (p : Nat) :
    ∀ c ∈ page_setup L p, is_page_call c = true := by
  intro c hc
  simp only [page_setup, List.mem_cons, List.mem_singleton, List.not_mem_nil, or_false] at hc
  rcases hc with h | h | h | h <;> subst h <;> simp [is_page_call]

/-- The shape of the result of the page loop, in every environment. -/
theorem page_loop_shape (env : Env) (L : Layout) (characters : List Nat) :
    ∀ (remaining p : Nat),
      ((page_loop env L characters remaining p).2 = Flow.completed →
        (∀ c ∈ (page_loop env L characters remaining p).1, is_page_call c = true) ∧
        (∀ k, p ≤ k → k < p + remaining →
          env.addpage_ok k = true ∧
          Call.AddPage k true ∈ (page_loop env L characters remaining p).1)) ∧
      ((page_loop env L characters remaining p).2 = Flow.thrown →
        ∀ c ∈ (page_loop env L characters remaining p).1, is_page_call c = true) ∧
      ((page_loop env L characters remaining p).2 = Flow.page_failed →
        ∃ pre k, (page_loop env L characters remaining p).1 =
            pre ++ [Call.AddPage k false, Call.Free] ∧
          (∀ c ∈ pre, is_page_call c = true) ∧ p ≤ k ∧ k < p + remaining ∧
          env.addpage_ok k = false ∧
          ∀ j, p ≤ j → j < k → env.addpage_ok j = true ∧ Call.AddPage j true ∈ pre) := by
  intro remaining
  induction remaining with
  | zero =>
    intro p
    simp [page_loop]
  | succ remaining ih =>
    intro p
    have hsetup := page_setup_page_calls L p
    have htexts := text_loop_page_calls env L characters p L.chars_per_page 0
    have hmem : Call.AddPage p true ∈ page_setup L p := by simp [page_setup]
    cases hadd : env.addpage_ok p with
    | false =>
      rw [page_loop_succ_failed env L characters remaining p hadd]
      refine ⟨by simp, by simp, fun _ => ⟨[], p, by simp, by simp, Nat.le_refl p, by omega,
        hadd, fun j h1 h2 => by omega⟩⟩
    | true =>
      cases hthrow : (text_loop env L characters p L.chars_per_page 0).2 with
      | true =>
        rw [page_loop_succ_thrown env L characters remaining p hadd hthrow]
        refine ⟨by simp, fun _ c hc => ?_, by simp⟩
        rcases List.mem_append.mp hc with h | h
        · exact hsetup c h
        · exact htexts c h
      | false =>
        rw [page_loop_succ_ok env L characters remaining p hadd hthrow]
        obtain ⟨ih1, ih2, ih3⟩ := ih (p + 1)
        have hhead : ∀ c ∈ page_setup L p ++
            (text_loop env L characters p L.chars_per_page 0).1, is_page_call c = true := by
          intro c hc
          rcases List.mem_append.mp hc with h | h
          · exact hsetup c h
          · exact htexts c h
        refine ⟨fun hflow => ?_, fun hflow c hc => ?_, fun hflow => ?_⟩
        · obtain ⟨ha, hb⟩ := ih1 hflow
          refine ⟨fun c hc => ?_, fun k h1 h2 => ?_⟩
          · rcases List.mem_append.mp hc with h | h
            · exact hhead c h
            · exact ha c h
          · by_cases hk : k = p
            · subst hk
              exact ⟨hadd, List.mem_append_left _ (List.mem_append_left _ hmem)⟩
            · obtain ⟨hc, hd⟩ := hb k (by omega) (by omega)
              exact ⟨hc, List.mem_append_right _ hd⟩
        · rcases List.mem_append.mp hc with h | h
          · exact hhead c h
          · exact ih2 hflow c h
        · obtain ⟨pre, k, heq, hpre, hk1, hk2, hk3, hk4⟩ := ih3 hflow
          refine ⟨page_setup L p ++ (text_loop env L characters p L.chars_per_page 0).1 ++ pre,
            k, ?_, fun c hc => ?_, by omega, by omega, hk3, fun j h1 h2 => ?_⟩
          · simp only [heq, List.append_assoc]
          · rcases List.mem_append.mp hc with h | h
            · exact hhead c h
            · exact hpre c h
          · by_cases hj : j = p
            · subst hj
              exact ⟨hadd, List.mem_append_left _ (List.mem_append_left _ hmem)⟩
            · obtain ⟨hc, hd⟩ := hk4 j (by omega) h2
              exact ⟨hc, List.mem_append_right _ hd⟩

/-- The possible results of `main_with`, in every environment. -/
theorem main_with_cases (L : Layout) (characters : List Nat) (env : Env) :
    (env.new_ok = false ∧
      main_with L characters env = ⟨[Call.New false], Outcome.returned 1⟩) ∨
    (env.new_ok = true ∧ env.load_ok = false ∧
      main_with L characters env =
        ⟨[Call.New true, Call.LoadTTFontFromFile false, Call.Free], Outcome.returned 1⟩) ∨
    (env.new_ok = true ∧ env.load_ok = true ∧ env.getfont_ok = false ∧
      main_with L characters env =
        ⟨[Call.New true, Call.LoadTTFontFromFile true, Call.GetFont false, Call.Free],
          Outcome.returned 1⟩) ∨
    (env.new_ok = true ∧ env.load_ok = true ∧ env.getfont_ok = true ∧
      ∃ pages, (∀ c ∈ pages, is_page_call c = true) ∧
        main_with L characters env =
          ⟨[Call.New true, Call.LoadTTFontFromFile true, Call.GetFont true] ++ pages,
            Outcome.uncaught⟩) ∨
    (env.new_ok = true ∧ env.load_ok = true ∧ env.getfont_ok = true ∧
      ∃ pre k, (∀ c ∈ pre, is_page_call c = true) ∧
        k < num_pages characters.length L.chars_per_page ∧
        env.addpage_ok k = false ∧
        (∀ j, j < k → env.addpage_ok j = true ∧ Call.AddPage j true ∈ pre) ∧
        main_with L characters env =
          ⟨[Call.New true, Call.LoadTTFontFromFile true, Call.GetFont true] ++ pre ++
            [Call.AddPage k false, Call.Free], Outcome.returned 1⟩) ∨
    (env.new_ok = true ∧ env.load_ok = true ∧ env.getfont_ok = true ∧
      ∃ pages, (∀ c ∈ pages, is_page_call c = true) ∧
        (∀ k, k < num_pages characters.length L.chars_per_page →
          env.addpage_ok k = true ∧ Call.AddPage k true ∈ pages) ∧
        main_with L characters env =
          ⟨[Call.New true, Call.LoadTTFontFromFile true, Call.GetFont true] ++ pages ++
            [Call.SaveToFile env.save_ok, Call.Free],
            Outcome.returned (if env.save_ok = true then 0 else 1)⟩) := by
  cases hnew : env.new_ok with
  | false => left; simp [main_with, hnew]
  | true =>
    right
    cases hload : env.load_ok with
    | false => left; simp [main_with, hnew, hload]
    | true =>
      right
      cases hfont : env.getfont_ok with
      | false => left; simp [main_with, hnew, hload, hfont]
      | true =>
        right
        obtain ⟨h1, h2, h3⟩ := page_loop_shape env L characters
          (num_pages characters.length L.chars_per_page) 0
        cases hflow : (page_loop env L characters
          (num_pages characters.length L.chars_per_page) 0).2 with
        | thrown =>
          left
          refine ⟨rfl, rfl, rfl, _, h2 hflow, ?_⟩
          simp [main_with, hnew, hload, hfont, hflow]
        | page_failed =>
          right; left
          obtain ⟨pre, k, heq, hpre, _, hk2, hk3, hk4⟩ := h3 hflow
          refine ⟨rfl, rfl, rfl, pre, k, hpre, by omega, hk3,
            fun j hj => hk4 j (Nat.zero_le j) hj, ?_⟩
          simp [main_with, hnew, hload, hfont, hflow, heq]
        | completed =>
          right; right
          obtain ⟨ha, hb⟩ := h1 hflow
          refine ⟨rfl, rfl, rfl, _, ha, fun k hk => hb k (Nat.zero_le k) (by omega), ?_⟩
          cases hsave : env.save_ok <;> simp [main_with, hnew, hload, hfont, hflow, hsave]

theorem not_failure_of_page_call (c : Call) (h : is_page_call c = true) :
    is_failure c = false := by
  cases c with
  | AddPage p b => cases b <;> simp_all [is_failure, is_page_call]
  | _ => simp_all [is_failure, is_page_call]

theorem program_num_pages :
    num_pages load_all_unicode_characters.length constants.chars_per_page = 328 := by
  rw [load_all_unicode_characters_length]
  rfl

theorem conv_at_index (env : Env) (characters : List Nat)
    (hconv : ∀ ch ∈ characters, (env.to_bytes ch).isSome = true) (idx : Nat)
    (h : idx < characters.length) :
    (env.to_bytes (characters.getD idx 0)).isSome = true := by
  rw [List.getD_eq_getElem characters 0 h]
  exact hconv _ (List.getElem_mem h)

/-- The inner loop does not throw when every character is converted. -/
theorem text_loop_no_throw (env : Env) (L : Layout) (characters : List Nat) (p : Nat)
    (hconv : ∀ ch ∈ characters, (env.to_bytes ch).isSome = true) :
    ∀ (remaining i : Nat), (text_loop env L characters p remaining i).2 = false := by
  intro remaining
  induction remaining with
  | zero => intro i; simp [text_loop]
  | succ remaining ih =>
    intro i
    rw [text_loop]
    by_cases hbreak : char_idx L.chars_per_page p i ≥ characters.length
    · rw [if_pos hbreak]
    · rw [if_neg hbreak]
      obtain ⟨s, hs⟩ := Option.isSome_iff_exists.mp
        (conv_at_index env characters hconv (char_idx L.chars_per_page p i) (by omega))
      simp only [hs]
      exact ih (i + 1)

/-- The page loop does not throw when every character is converted. -/
theorem page_loop_no_throw (env : Env) (L : Layout) (characters : List Nat)
    (hconv : ∀ ch ∈ characters, (env.to_bytes ch).isSome = true) :
    ∀ (remaining p : Nat), (page_loop env L characters remaining p).2 ≠ Flow.thrown := by
  intro remaining
  induction remaining with
  | zero => intro p; simp [page_loop]
  | succ remaining ih =>
    intro p
    cases hadd : env.addpage_ok p with
    | false =>
      rw [page_loop_succ_failed env L characters remaining p hadd]
      simp
    | true =>
      rw [page_loop_succ_ok env L characters remaining p hadd
        (text_loop_no_throw env L characters p hconv _ _)]
      exact ih (p + 1)

theorem main_with_not_uncaught (L : Layout) (characters : List Nat) (env : Env)
    (hconv : ∀ ch ∈ characters, (env.to_bytes ch).isSome = true) :
    (main_with L characters env).outcome ≠ Outcome.uncaught := by
  have hflow := page_loop_no_throw env L characters hconv
    (num_pages characters.length L.chars_per_page) 0
  unfold main_with
  split
  · simp
  · split
    · simp
    · split
      · simp
      · dsimp only
        split
        · rename_i h; exact absurd h hflow
        · simp
        · split <;> simp

theorem main_page_fail_env_zero :
    main (page_fail_env 0) =
      ⟨[Call.New true, Call.LoadTTFontFromFile true, Call.GetFont true,
        Call.AddPage 0 false, Call.Free], Outcome.returned 1⟩ := by
  have hn : num_pages load_all_unicode_characters.length constants.chars_per_page
      = 327 + 1 := program_num_pages
  have hadd : (page_fail_env 0).addpage_ok 0 = false := rfl
  simp only [main, main_with, hn,
    page_loop_succ_failed (page_fail_env 0) constants load_all_unicode_characters 327 0 hadd]
  simp [page_fail_env]

/-! ## Reference trace and painted texts -/

theorem filter_range_lt (c N : Nat) : ∀ P : Nat,
    (List.range P).filter (fun i => decide (c + i < N)) = List.range (min P (N - c)) := by
  intro P
  induction P with
  | zero => simp
  | succ P ih =>
    rw [List.range_succ, List.filter_append, ih]
    by_cases h : c + P < N
    · have hm : min (P + 1) (N - c) = min P (N - c) + 1 := by omega
      have hm2 : min P (N - c) = P := by omega
      rw [hm, List.range_succ, hm2]
      simp [h]
    · have hm : min (P + 1) (N - c) = min P (N - c) := by omega
      rw [hm]
      simp [h]

theorem reference_page_eq (env : Env) (L : Layout) (characters : List Nat) (q : Nat) :
    reference_page env L characters q = full_page env L characters q := by
  rw [reference_page, full_page, filter_range_lt, paints, List.range_eq_range']

theorem painted_texts_append (l1 l2 : List Call) :
    painted_texts (l1 ++ l2) = painted_texts l1 ++ painted_texts l2 := by
  simp [painted_texts, List.filterMap_append]

theorem painted_texts_page_setup (L : Layout) (q : Nat) :
    painted_texts (page_setup L q) = [] := by
  simp [painted_texts, page_setup]

theorem painted_texts_paints (env : Env) (L : Layout) (characters : List Nat) (q : Nat) :
    ∀ (m i : Nat), painted_texts (paints env L characters q i m) =
      (List.range' i m).map
        (fun j => text_of env (characters.getD (q * L.chars_per_page + j) 0)) := by
  intro m
  induction m with
  | zero => intro i; simp [paints_zero, painted_texts]
  | succ m ih =>
    intro i
    rw [paints_succ, painted_texts_append, ih (i + 1), List.range'_succ, List.map_cons]
    simp [painted_texts, paint]

theorem map_getD_range (characters : List Nat) (f : Nat → List Nat) (c0 : Nat) :
    ∀ (remaining i : Nat),
      (List.range' i (min remaining (characters.length - (c0 + i)))).map
          (fun j => f (characters.getD (c0 + j) 0)) =
        ((characters.drop (c0 + i)).take remaining).map f := by
  intro remaining
  induction remaining with
  | zero => intro i; simp
  | succ remaining ih =>
    intro i
    by_cases h : c0 + i < characters.length
    · have hm : min (remaining + 1) (characters.length - (c0 + i)) =
          min remaining (characters.length - (c0 + (i + 1))) + 1 := by omega
      rw [hm, List.range'_succ, List.map_cons, ih (i + 1), List.drop_eq_getElem_cons h,
        List.take_succ_cons, List.map_cons, List.getD_eq_getElem characters 0 h]
      rfl
    · have hm : min (remaining + 1) (characters.length - (c0 + i)) = 0 := by omega
      rw [hm, List.drop_eq_nil_of_le (by omega)]
      simp

theorem painted_texts_full_page (env : Env) (L : Layout) (characters : List Nat) (q : Nat) :
    painted_texts (full_page env L characters q) =
      ((characters.drop (q * L.chars_per_page)).take L.chars_per_page).map (text_of env) := by
  rw [full_page, painted_texts_append, painted_texts_page_setup, painted_texts_paints,
    List.nil_append]
  have := map_getD_range characters (text_of env) (q * L.chars_per_page) L.chars_per_page 0
  simpa using this

theorem painted_texts_pages (env : Env) (L : Layout) (characters : List Nat) :
    ∀ (remaining p : Nat),
      painted_texts ((List.range' p remaining).flatMap (full_page env L characters)) =
        ((characters.drop (p * L.chars_per_page)).take
          (remaining * L.chars_per_page)).map (text_of env) := by
  intro remaining
  induction remaining with
  | zero => intro p; simp [painted_texts]
  | succ remaining ih =>
    intro p
    have h1 : (remaining + 1) * L.chars_per_page =
        L.chars_per_page + remaining * L.chars_per_page := by
      rw [Nat.add_mul, Nat.one_mul, Nat.add_comm]
    have h2 : (p + 1) * L.chars_per_page = p * L.chars_per_page + L.chars_per_page := by
      rw [Nat.add_mul, Nat.one_mul]
    rw [List.range'_succ, List.flatMap_cons, painted_texts_append, painted_texts_full_page,
      ih (p + 1), h1, List.take_add, List.map_append, List.drop_drop, h2]

/-- The run in closed form when set-up, every page creation and every conversion succeed. -/
theorem main_with_ok (L : Layout) (characters : List Nat) (env : Env)
    (hP : 1 ≤ L.chars_per_page)
    (hov : characters.length + L.chars_per_page - 1 < 2 ^ 64)
    (hnew : env.new_ok = true) (hload : env.load_ok = true) (hfont : env.getfont_ok = true)
    (hpages : ∀ k, k < num_pages characters.length L.chars_per_page →
      env.addpage_ok k = true)
    (hconv : ∀ ch ∈ characters, (env.to_bytes ch).isSome = true) :
    main_with L characters env =
      ⟨[Call.New true, Call.LoadTTFontFromFile true, Call.GetFont true] ++
        (List.range (num_pages characters.length L.chars_per_page)).flatMap
          (full_page env L characters) ++
        [Call.SaveToFile env.save_ok, Call.Free],
        Outcome.returned (if env.save_ok = true then 0 else 1)⟩ := by
  obtain ⟨_, hb⟩ := num_pages_bounds characters.length L.chars_per_page hP hov
  have hloop := page_loop_ok env L characters (conv_at_index env characters hconv)
    (num_pages characters.length L.chars_per_page) 0 (by rw [Nat.zero_add]; omega)
    (fun k _ hk => hpages k (by omega))
  rw [← List.range_eq_range'] at hloop
  cases hsave : env.save_ok <;> simp [main_with, hnew, hload, hfont, hloop, hsave]

theorem painted_count_page (env : Env) (L : Layout) (characters : List Nat) (p : Nat)
    (hov : p * L.chars_per_page + L.chars_per_page ≤ 2 ^ 64)
    (hconv : ∀ ch ∈ characters, (env.to_bytes ch).isSome = true) :
    (painted_texts (text_loop env L characters p L.chars_per_page 0).1).length =
      min L.chars_per_page (characters.length - p * L.chars_per_page) := by
  rw [text_loop_ok env L characters p L.chars_per_page 0 (by omega)
    (fun j _ _ h => conv_at_index env characters hconv _ h), painted_texts_paints]
  simp

/-! ## Painted positions -/

theorem positions_on_append (p : Nat) (l1 l2 : List Call) :
    positions_on p (l1 ++ l2) = positions_on p l1 ++ positions_on p l2 := by
  simp [positions_on, List.filterMap_append]

theorem positions_on_page_setup (L : Layout) (p q : Nat) :
    positions_on p (page_setup L q) = [] := by
  simp [positions_on, page_setup]

theorem positions_on_paints (env : Env) (L : Layout) (characters : List Nat) (p : Nat) :
    ∀ (m i : Nat), positions_on p (paints env L characters p i m) =
      (List.range' i m).map (fun j => (x_of L (cell L j).2, y_of L (cell L j).1)) := by
  intro m
  induction m with
  | zero => intro i; simp [paints_zero, positions_on]
  | succ m ih =>
    intro i
    rw [paints_succ, positions_on_append, ih (i + 1), List.range'_succ, List.map_cons]
    simp [positions_on, paint]

theorem positions_on_paints_other (env : Env) (L : Layout) (characters : List Nat)
    (p q : Nat) (hpq : q ≠ p) :
    ∀ (m i : Nat), positions_on p (paints env L characters q i m) = [] := by
  intro m
  induction m with
  | zero => intro i; simp [paints_zero, positions_on]
  | succ m ih =>
    intro i
    rw [paints_succ, positions_on_append, ih (i + 1)]
    simp [positions_on, paint, hpq]

theorem positions_on_full_page (env : Env) (L : Layout) (characters : List Nat) (p q : Nat) :
    positions_on p (full_page env L characters q) =
      if q = p then
        (List.range (min L.chars_per_page (characters.length - q * L.chars_per_page))).map
          (fun j => (x_of L (cell L j).2, y_of L (cell L j).1))
      else [] := by
  rw [full_page, positions_on_append, positions_on_page_setup, List.nil_append]
  by_cases hpq : q = p
  · subst hpq
    rw [if_pos rfl, positions_on_paints, List.range_eq_range']
  · rw [if_neg hpq, positions_on_paints_other env L characters p q hpq]

theorem scenario_run :
    main_with scenario_layout (List.range 20) ok_env =
      ⟨[Call.New true, Call.LoadTTFontFromFile true, Call.GetFont true] ++
        (full_page ok_env scenario_layout (List.range 20) 0 ++
          full_page ok_env scenario_layout (List.range 20) 1) ++
        [Call.SaveToFile true, Call.Free], Outcome.returned 0⟩ := by
  have hn : num_pages (List.range 20).length scenario_layout.chars_per_page = 2 := by
    rw [List.length_range]; rfl
  rw [main_with_ok scenario_layout (List.range 20) ok_env (by decide)
    (by rw [List.length_range]; decide) rfl rfl rfl (fun _ _ => rfl) (fun _ _ => rfl), hn]
  simp [List.range_succ, ok_env]

/-! ## A run in which a conversion fails -/

/-- The run in closed form when set-up and the page creations succeed and the conversion
first fails at the character index `q * chars_per_page + f`, `f < chars_per_page`. -/
theorem main_with_throw (L : Layout) (characters : List Nat) (env : Env) (q f : Nat)
    (hov : characters.length + L.chars_per_page - 1 < 2 ^ 64)
    (hfP : f < L.chars_per_page)
    (hf : q * L.chars_per_page + f < characters.length)
    (hnone : env.to_bytes (characters.getD (q * L.chars_per_page + f) 0) = none)
    (hconv : ∀ idx, idx < q * L.chars_per_page + f →
      (env.to_bytes (characters.getD idx 0)).isSome = true)
    (hnew : env.new_ok = true) (hload : env.load_ok = true) (hfont : env.getfont_ok = true)
    (hpages : ∀ k, k ≤ q → env.addpage_ok k = true) :
    main_with L characters env =
      ⟨[Call.New true, Call.LoadTTFontFromFile true, Call.GetFont true] ++
        ((List.range q).flatMap (full_page env L characters) ++
          (page_setup L q ++ paints env L characters q 0 f)),
        Outcome.uncaught⟩ := by
  obtain ⟨ha, hb⟩ := num_pages_bounds characters.length L.chars_per_page (by omega) hov
  have hq : q < num_pages characters.length L.chars_per_page := by
    by_contra hc
    have := Nat.mul_le_mul_right L.chars_per_page
      (by omega : num_pages characters.length L.chars_per_page ≤ q)
    omega
  have hloop := page_loop_throw env L characters q f hfP hf hnone hconv
    (num_pages characters.length L.chars_per_page) 0 (by rw [Nat.zero_add]; omega)
    (Nat.zero_le q) (by omega) (fun k _ hk => hpages k hk)
  rw [Nat.sub_zero, ← List.range_eq_range'] at hloop
  simp [main_with, hnew, hload, hfont, hloop]

theorem painted_texts_throw (env : Env) (L : Layout) (characters : List Nat) (q f : Nat)
    (hf : q * L.chars_per_page + f < characters.length) :
    painted_texts ([Call.New true, Call.LoadTTFontFromFile true, Call.GetFont true] ++
        ((List.range q).flatMap (full_page env L characters) ++
          (page_setup L q ++ paints env L characters q 0 f))) =
      (characters.take (q * L.chars_per_page + f)).map (text_of env) := by
  have hp := painted_texts_pages env L characters q 0
  rw [← List.range_eq_range', Nat.zero_mul, List.drop_zero] at hp
  have hm := map_getD_range characters (text_of env) (q * L.chars_per_page) f 0
  have hmin : min f (characters.length - (q * L.chars_per_page + 0)) = f := by omega
  rw [hmin, Nat.add_zero] at hm
  rw [painted_texts_append, painted_texts_append, painted_texts_append, hp,
    painted_texts_page_setup, painted_texts_paints, hm, List.take_add, List.map_append]
  simp [painted_texts]

theorem load_all_getD (idx : Nat) (h : idx < 65536) :
    load_all_unicode_characters.getD idx 0 = idx := by
  rw [load_all_unicode_characters_eq,
    List.getD_eq_getElem _ 0 (by rw [List.length_range]; exact h)]
  simp

/-! ## Sample runs -/

theorem ok_env_conv (characters : List Nat) :
    ∀ ch ∈ characters, (ok_env.to_bytes ch).isSome = true :=
  fun _ _ => rfl

theorem program_no_overflow :
    load_all_unicode_characters.length + constants.chars_per_page - 1 < 2 ^ 64 := by
  rw [load_all_unicode_characters_length]
  decide

theorem strict_env_first (c : Nat) (h : c < 0xD800) :
    (strict_env.to_bytes c).isSome = true := by
  have hc : ¬ (0xD800 ≤ c ∧ c ≤ 0xDFFF) := by omega
  simp only [strict_env, if_neg hc, Option.isSome_some]

theorem surrogate_mem : 0xD800 ∈ load_all_unicode_characters := by
  rw [load_all_unicode_characters_eq]
  exact List.mem_range.mpr (by decide)


theorem strict_env_text_ne (c : Nat) (hc : c < 0xD800) :
    text_of strict_env c ≠ utf8_encode 0xE000 := by
  have hs : ¬ (0xD800 ≤ c ∧ c ≤ 0xDFFF) := by omega
  have h1 : utf8_encode 0xE000 = [0xEE, 0x80, 0x80] := by decide
  rw [h1]
  simp only [text_of, strict_env, if_neg hs, Option.getD_some, utf8_encode]
  split
  · simp
  · split
    · simp
    · intro h
      have h2 := (List.cons.inj h).1
      omega

theorem paints_page_calls (env : Env) (L : Layout) (characters : List Nat) (q : Nat) :
    ∀ (m i : Nat), ∀ c ∈ paints env L characters q i m, is_page_call c = true := by
  intro m
  induction m with
  | zero => intro i c hc; simp [paints_zero] at hc
  | succ m ih =>
    intro i c hc
    rw [paints_succ] at hc
    rcases List.mem_append.mp hc with h | h
    · simp only [paint, List.mem_cons, List.mem_singleton, List.not_mem_nil, or_false] at h
      rcases h with h | h | h <;> subst h <;> simp [is_page_call]
    · exact ih (i + 1) c h

theorem full_page_page_calls (env : Env) (L : Layout) (characters : List Nat) (q : Nat) :
    ∀ c ∈ full_page env L characters q, is_page_call c = true := by
  intro c hc
  rcases List.mem_append.mp hc with h | h
  · exact page_setup_page_calls L q c h
  · exact paints_page_calls env L characters q _ _ c h

/-- The calls of the page loop up to a failing conversion are page calls. -/
theorem throw_trace_page_calls (env : Env) (L : Layout) (characters : List Nat) (q f : Nat) :
    ∀ c ∈ (List.range q).flatMap (full_page env L characters) ++
        (page_setup L q ++ paints env L characters q 0 f),
      is_page_call c = true := by
  intro c hc
  rcases List.mem_append.mp hc with h | h
  · obtain ⟨p, _, hp⟩ := List.mem_flatMap.mp h
    exact full_page_page_calls env L characters p c hp
  · rcases List.mem_append.mp h with h | h
    · exact page_setup_page_calls L q c h
    · exact paints_page_calls env L characters q _ _ c h

/-- The run of `main` when set-up and the page creations succeed and `ch` is the first code
point whose conversion fails. -/
theorem main_throw_run (env : Env) (ch : Nat)
    (hch : ch ∈ load_all_unicode_characters)
    (hnone : env.to_bytes ch = none)
    (hfirst : ∀ c, c < ch → (env.to_bytes c).isSome = true)
    (hnew : env.new_ok = true) (hload : env.load_ok = true) (hfont : env.getfont_ok = true)
    (hpages : ∀ k, k ≤ ch / constants.chars_per_page → env.addpage_ok k = true) :
    main env =
      ⟨[Call.New true, Call.LoadTTFontFromFile true, Call.GetFont true] ++
        ((List.range (ch / constants.chars_per_page)).flatMap
            (full_page env constants load_all_unicode_characters) ++
          (page_setup constants (ch / constants.chars_per_page) ++
            paints env constants load_all_unicode_characters
              (ch / constants.chars_per_page) 0 (ch % constants.chars_per_page))),
        Outcome.uncaught⟩ := by
  have hlt : ch < 65536 := by
    rw [load_all_unicode_characters_eq] at hch
    exact List.mem_range.mp hch
  have hP : constants.chars_per_page = 200 := rfl
  have hidx : ch / constants.chars_per_page * constants.chars_per_page +
      ch % constants.chars_per_page = ch := by
    rw [Nat.mul_comm]
    exact Nat.div_add_mod ch _
  exact main_with_throw constants load_all_unicode_characters env
    (ch / constants.chars_per_page) (ch % constants.chars_per_page)
    program_no_overflow
    (Nat.mod_lt _ (by rw [hP]; norm_num))
    (by rw [hidx, load_all_unicode_characters_length]; exact hlt)
    (by rw [hidx, load_all_getD ch hlt]; exact hnone)
    (fun idx h => by
      rw [hidx] at h
      rw [load_all_getD idx (by omega)]
      exact hfirst idx h)
    hnew hload hfont hpages

/-- The texts painted up to the first failing code point `ch` of the program. -/
theorem throw_trace_painted (env : Env) (ch : Nat) (hlt : ch < 65536) :
    painted_texts ([Call.New true, Call.LoadTTFontFromFile true, Call.GetFont true] ++
        ((List.range (ch / constants.chars_per_page)).flatMap
            (full_page env constants load_all_unicode_characters) ++
          (page_setup constants (ch / constants.chars_per_page) ++
            paints env constants load_all_unicode_characters
              (ch / constants.chars_per_page) 0 (ch % constants.chars_per_page)))) =
      (List.range ch).map (text_of env) := by
  have hidx : ch / constants.chars_per_page * constants.chars_per_page +
      ch % constants.chars_per_page = ch := by
    rw [Nat.mul_comm]
    exact Nat.div_add_mod ch _
  have hpaint := painted_texts_throw env constants load_all_unicode_characters
    (ch / constants.chars_per_page) (ch % constants.chars_per_page)
    (by rw [hidx, load_all_unicode_characters_length]; exact hlt)
  rw [hidx, load_all_unicode_characters_eq, List.take_range,
    Nat.min_eq_left (by omega : ch ≤ 65536), ← load_all_unicode_characters_eq] at hpaint
  exact hpaint

/-- In the sample environment `strict_env` the trace of `main` holds neither a save nor a
release, and the exception leaves `main`. -/
theorem strict_env_run :
    (main strict_env).outcome = Outcome.uncaught ∧
    Call.New true ∈ (main strict_env).trace ∧
    (∀ b, Call.SaveToFile b ∉ (main strict_env).trace) ∧
    Call.Free ∉ (main strict_env).trace ∧
    (painted_texts (main strict_env).trace).length = 55296 := by
  have hrun := main_throw_run strict_env 0xD800 surrogate_mem rfl strict_env_first
    rfl rfl rfl (fun _ _ => rfl)
  have hcalls := throw_trace_page_calls strict_env constants load_all_unicode_characters
    (0xD800 / constants.chars_per_page) (0xD800 % constants.chars_per_page)
  have hpaint := throw_trace_painted strict_env 0xD800 (by decide)
  rw [hrun]
  refine ⟨rfl, by simp, ?_, ?_, ?_⟩
  · intro b hb
    rcases List.mem_append.mp hb with h | h
    · simp at h
    · have := hcalls _ h
      simp [is_page_call] at this
  · intro hb
    rcases List.mem_append.mp hb with h | h
    · simp at h
    · have := hcalls _ h
      simp [is_page_call] at this
  · show (painted_texts _).length = 55296
    rw [hpaint, List.length_map, List.length_range]

/-! ## The claims -/

/-- C1, the claim as stated fails: in the sample environment `strict_env` every backend call
succeeds (set-up, every page creation, the save), yet the trace of `main` is not the
set-up, the reference trace and the release: the conversion of `0xD800` throws, no
`HPDF_SaveToFile` is issued, `main` does not return 0, and only 55296 of the 65536 code
points are painted. -/
theorem backend_success_trace_differs :
    strict_env.new_ok = true ∧ strict_env.load_ok = true ∧ strict_env.getfont_ok = true ∧
    (∀ k, strict_env.addpage_ok k = true) ∧ strict_env.save_ok = true ∧
    (main strict_env).trace ≠
      [Call.New true, Call.LoadTTFontFromFile true, Call.GetFont true] ++
        reference_pages_and_save strict_env constants load_all_unicode_characters ++
        [Call.Free] ∧
    (∀ b, Call.SaveToFile b ∉ (main strict_env).trace) ∧
    (main strict_env).outcome ≠ Outcome.returned 0 ∧
    (painted_texts (main strict_env).trace).length = 55296 ∧
    load_all_unicode_characters.length = 65536 := by
  obtain ⟨hout, _, hsave, hfree, hlen⟩ := strict_env_run
  refine ⟨rfl, rfl, rfl, fun _ => rfl, rfl, ?_, hsave, ?_, hlen,
    load_all_unicode_characters_length⟩
  · intro heq
    apply hfree
    rw [heq]
    exact List.mem_append_right _ (List.mem_singleton.mpr rfl)
  · rw [hout]
    exact fun h => Outcome.noConfusion h

/-- C1 as amended: on a run in which set-up, every page creation, the save and every
conversion succeed (with `chars_per_page ≥ 1` and `N + chars_per_page - 1` not wrapping),
the trace of `main` is the set-up, then the reference trace of the page loop and the save
(for `page_idx = 0 .. num_pages - 1` one successful `HPDF_AddPage` and the page set-up, then
one begin / paint / end triple for each within-page index `i` with
`page_idx * chars_per_page + i < N`, ascending; then one `HPDF_SaveToFile`), then the
release; `main` returns 0.  The texts painted, in trace order, are exactly the texts of the
enumerated sequence, each being the conversion of its code point.  For the empty sequence no
page is created and the save is still issued. -/
theorem main_trace_reference (L : Layout) (characters : List Nat) (env : Env)
    (hP : 1 ≤ L.chars_per_page)
    (hov : characters.length + L.chars_per_page - 1 < 2 ^ 64)
    (hnew : env.new_ok = true) (hload : env.load_ok = true) (hfont : env.getfont_ok = true)
    (hpages : ∀ k, k < num_pages characters.length L.chars_per_page →
      env.addpage_ok k = true)
    (hsave : env.save_ok = true)
    (hconv : ∀ ch ∈ characters, (env.to_bytes ch).isSome = true) :
    (main_with L characters env).trace =
      [Call.New true, Call.LoadTTFontFromFile true, Call.GetFont true] ++
        reference_pages_and_save env L characters ++ [Call.Free] ∧
    (main_with L characters env).outcome = Outcome.returned 0 ∧
    painted_texts (main_with L characters env).trace = characters.map (text_of env) ∧
    (∀ ch ∈ characters, env.to_bytes ch = some (text_of env ch)) ∧
    (characters = [] →
      (main_with L characters env).trace =
        [Call.New true, Call.LoadTTFontFromFile true, Call.GetFont true,
          Call.SaveToFile true, Call.Free]) := by
  have hrun := main_with_ok L characters env hP hov hnew hload hfont hpages hconv
  obtain ⟨ha, _⟩ := num_pages_bounds characters.length L.chars_per_page hP hov
  have href : (List.range (num_pages characters.length L.chars_per_page)).flatMap
      (reference_page env L characters) =
      (List.range (num_pages characters.length L.chars_per_page)).flatMap
        (full_page env L characters) := by
    congr 1
    funext q
    exact reference_page_eq env L characters q
  rw [hrun, hsave]
  refine ⟨?_, by simp, ?_, ?_, ?_⟩
  · simp [reference_pages_and_save, href]
  · have hp := painted_texts_pages env L characters
      (num_pages characters.length L.chars_per_page) 0
    rw [← List.range_eq_range'] at hp
    simp only [painted_texts_append, hp]
    rw [Nat.zero_mul, List.drop_zero, List.take_of_length_le ha]
    simp [painted_texts]
  · intro ch hch
    obtain ⟨s, hs⟩ := Option.isSome_iff_exists.mp (hconv ch hch)
    simp [text_of, hs]
  · intro hnil
    subst hnil
    have h0 : num_pages ([] : List Nat).length L.chars_per_page = 0 := by
      rw [num_pages_eq _ _ hov]
      simp only [List.length_nil, Nat.zero_add]
      exact Nat.div_eq_of_lt (by omega)
    rw [h0]
    simp

/-- Witness of C1 as amended: the program in the sample environment `ok_env`. -/
theorem main_trace_reference_witness :
    (main ok_env).trace =
      [Call.New true, Call.LoadTTFontFromFile true, Call.GetFont true] ++
        reference_pages_and_save ok_env constants load_all_unicode_characters ++
        [Call.Free] ∧
    (main ok_env).outcome = Outcome.returned 0 ∧
    painted_texts (main ok_env).trace = load_all_unicode_characters.map (text_of ok_env) :=
  have h := main_trace_reference constants load_all_unicode_characters ok_env (by decide)
    program_no_overflow rfl rfl rfl (fun _ _ => rfl) rfl (ok_env_conv _)
  ⟨h.1, h.2.1, h.2.2.1⟩

/-- C2: for `N ≥ 1` characters and `chars_per_page = P ≥ 1` with `N + P - 1` not wrapping,
`num_pages` is `⌈N / P⌉` and is at least 1; on every page before the last the inner loop
reaches no `break` (every `i < P` has `char_idx < N`), and on the last page the loop body
is executed exactly for the indices `i < N - (num_pages - 1) * P`; accordingly, when every
character is converted, the inner loop paints exactly `P` characters on every page before
the last and exactly `N - (num_pages - 1) * P` on the last; that number lies in `[1, P]`,
and equals `P` when `N mod P = 0` and `N mod P` otherwise, so every page created receives
at least one character.  For the constants of the program this is 328 pages with 136
characters on the last. -/
theorem pages_partition (L : Layout) (characters : List Nat)
    (hN : 1 ≤ characters.length) (hP : 1 ≤ L.chars_per_page)
    (hov : characters.length + L.chars_per_page - 1 < 2 ^ 64) :
    num_pages characters.length L.chars_per_page =
      ⌈(characters.length : ℚ) / (L.chars_per_page : ℚ)⌉₊ ∧
    1 ≤ num_pages characters.length L.chars_per_page ∧
    (∀ p i, p + 1 < num_pages characters.length L.chars_per_page → i < L.chars_per_page →
      char_idx L.chars_per_page p i < characters.length) ∧
    (∀ i, i < L.chars_per_page →
      (char_idx L.chars_per_page (num_pages characters.length L.chars_per_page - 1) i
          < characters.length ↔
        i < characters.length -
          (num_pages characters.length L.chars_per_page - 1) * L.chars_per_page)) ∧
    (∀ env : Env, (∀ ch ∈ characters, (env.to_bytes ch).isSome = true) →
      (∀ p, p + 1 < num_pages characters.length L.chars_per_page →
        (painted_texts (text_loop env L characters p L.chars_per_page 0).1).length =
          L.chars_per_page) ∧
      (painted_texts (text_loop env L characters
          (num_pages characters.length L.chars_per_page - 1) L.chars_per_page 0).1).length =
        characters.length -
          (num_pages characters.length L.chars_per_page - 1) * L.chars_per_page) ∧
    1 ≤ characters.length -
        (num_pages characters.length L.chars_per_page - 1) * L.chars_per_page ∧
    characters.length -
        (num_pages characters.length L.chars_per_page - 1) * L.chars_per_page
      ≤ L.chars_per_page ∧
    (characters.length % L.chars_per_page = 0 →
      characters.length -
        (num_pages characters.length L.chars_per_page - 1) * L.chars_per_page
      = L.chars_per_page) ∧
    (characters.length % L.chars_per_page ≠ 0 →
      characters.length -
        (num_pages characters.length L.chars_per_page - 1) * L.chars_per_page
      = characters.length % L.chars_per_page) ∧
    num_pages load_all_unicode_characters.length constants.chars_per_page = 328 ∧
    load_all_unicode_characters.length - (328 - 1) * constants.chars_per_page = 136 := by
  obtain ⟨hb1, hb2⟩ := num_pages_bounds characters.length L.chars_per_page hP hov
  obtain ⟨hn, hl1, hl2, hl3, hl4⟩ := last_page_count characters.length L.chars_per_page hN hP hov
  have hsub : (num_pages characters.length L.chars_per_page - 1) * L.chars_per_page =
      num_pages characters.length L.chars_per_page * L.chars_per_page - L.chars_per_page := by
    rw [Nat.sub_mul, Nat.one_mul]
  have hle : L.chars_per_page ≤
      num_pages characters.length L.chars_per_page * L.chars_per_page :=
    Nat.le_mul_of_pos_left _ (by omega)
  refine ⟨num_pages_ceil _ _ hN hP hov, hn, ?_, ?_, ?_, hl1, hl2, hl3, hl4, program_num_pages,
    by rw [load_all_unicode_characters_length]; rfl⟩
  · intro p i hp hi
    have := succ_mul_le p (num_pages characters.length L.chars_per_page - 1)
      L.chars_per_page (by omega)
    rw [char_idx_eq _ _ _ (by omega)]
    omega
  · intro i hi
    rw [char_idx_eq _ _ _ (by omega)]
    omega
  · intro env hconv
    have hcount : ∀ p, p < num_pages characters.length L.chars_per_page →
        (painted_texts (text_loop env L characters p L.chars_per_page 0).1).length =
          min L.chars_per_page (characters.length - p * L.chars_per_page) := by
      intro p hp
      have := succ_mul_le p (num_pages characters.length L.chars_per_page) L.chars_per_page hp
      exact painted_count_page env L characters p (by omega) hconv
    constructor
    · intro p hp
      have := succ_mul_le p (num_pages characters.length L.chars_per_page - 1)
        L.chars_per_page (by omega)
      rw [hcount p (by omega)]
      omega
    · rw [hcount _ (by omega)]
      omega

/-- Witness of C2: the program in the sample environment `ok_env`. -/
theorem pages_partition_witness :
    num_pages load_all_unicode_characters.length constants.chars_per_page =
      ⌈(load_all_unicode_characters.length : ℚ) / (constants.chars_per_page : ℚ)⌉₊ ∧
    (∀ p, p + 1 < num_pages load_all_unicode_characters.length constants.chars_per_page →
      (painted_texts (text_loop ok_env constants load_all_unicode_characters p
        constants.chars_per_page 0).1).length = constants.chars_per_page) ∧
    (painted_texts (text_loop ok_env constants load_all_unicode_characters
        (num_pages load_all_unicode_characters.length constants.chars_per_page - 1)
        constants.chars_per_page 0).1).length =
      load_all_unicode_characters.length -
        (num_pages load_all_unicode_characters.length constants.chars_per_page - 1) *
          constants.chars_per_page :=
  have h := pages_partition constants load_all_unicode_characters
    (by rw [load_all_unicode_characters_length]; decide) (by decide)
    program_no_overflow
  ⟨h.1, (h.2.2.2.2.1 ok_env (ok_env_conv _)).1, (h.2.2.2.2.1 ok_env (ok_env_conv _)).2⟩

/-- C3: for `chars_per_line ≥ 1` and a within-page index `i < chars_per_page`, the grid
cell is `line = i / chars_per_line`, `col = i mod chars_per_line`, with
`col < chars_per_line` and `i = line * chars_per_line + col`; the cell determines `i`; the
cell of index 0 is `(0, 0)`; and on every page `p` the `i`-th position painted by the inner
loop is the placement of that cell, whatever `p` is (every character being converted, the
index arithmetic not wrapping).  Scenario `chars_per_page = 10`, `chars_per_line = 5`,
range `[0, 19]`: the cells of a page are `(0,0) .. (1,4)`, and the positions painted on
page 0 and on page 1 are both the placements of these cells. -/
theorem grid_cell_spec (L : Layout) (i : Nat) (hL : 1 ≤ L.chars_per_line)
    (hi : i < L.chars_per_page) :
    (cell L i).1 = i / L.chars_per_line ∧
    (cell L i).2 = i % L.chars_per_line ∧
    (cell L i).2 < L.chars_per_line ∧
    i = (cell L i).1 * L.chars_per_line + (cell L i).2 ∧
    (∀ j, cell L j = cell L i → j = i) ∧
    cell L 0 = (0, 0) ∧
    (∀ (env : Env) (characters : List Nat) (p : Nat),
      p * L.chars_per_page + L.chars_per_page ≤ 2 ^ 64 →
      p * L.chars_per_page + i < characters.length →
      (∀ ch ∈ characters, (env.to_bytes ch).isSome = true) →
      (positions_on p (text_loop env L characters p L.chars_per_page 0).1)[i]? =
        some (x_of L (i % L.chars_per_line), y_of L (i / L.chars_per_line))) ∧
    (List.range 10).map (cell scenario_layout) =
      [(0, 0), (0, 1), (0, 2), (0, 3), (0, 4), (1, 0), (1, 1), (1, 2), (1, 3), (1, 4)] ∧
    enumerate 21 0 19 = some (List.range 20) ∧
    positions_on 0 (main_with scenario_layout (List.range 20) ok_env).trace =
      ((List.range 10).map (cell scenario_layout)).map
        (fun c => (x_of scenario_layout c.2, y_of scenario_layout c.1)) ∧
    positions_on 1 (main_with scenario_layout (List.range 20) ok_env).trace =
      ((List.range 10).map (cell scenario_layout)).map
        (fun c => (x_of scenario_layout c.2, y_of scenario_layout c.1)) := by
  have hdm := Nat.div_add_mod i L.chars_per_line
  refine ⟨rfl, rfl, Nat.mod_lt _ (by omega), ?_, ?_, ?_, ?_, by decide, by decide, ?_, ?_⟩
  · show i = i / L.chars_per_line * L.chars_per_line + i % L.chars_per_line
    rw [Nat.mul_comm]
    omega
  · intro j hj
    have h1 : j / L.chars_per_line = i / L.chars_per_line := congrArg Prod.fst hj
    have h2 : j % L.chars_per_line = i % L.chars_per_line := congrArg Prod.snd hj
    have hdj := Nat.div_add_mod j L.chars_per_line
    rw [h1, h2] at hdj
    omega
  · simp [cell]
  · intro env characters p hov hidx hconv
    rw [text_loop_ok env L characters p L.chars_per_page 0 (by omega)
      (fun j _ _ h => conv_at_index env characters hconv _ h), positions_on_paints,
      List.getElem?_map, List.getElem?_range' 0 1 (by omega)]
    simp [cell]
  · rw [scenario_run]
    simp only [positions_on_append, positions_on_full_page]
    simp [positions_on, scenario_layout, constants]
  · rw [scenario_run]
    simp only [positions_on_append, positions_on_full_page]
    simp [positions_on, scenario_layout, constants]

/-- Witness of C3: the constants of the program at the within-page index 137. -/
theorem grid_cell_spec_witness :
    (cell constants 137).1 = 137 / constants.chars_per_line ∧
    (cell constants 137).2 = 137 % constants.chars_per_line ∧
    (cell constants 137).2 < constants.chars_per_line ∧
    137 = (cell constants 137).1 * constants.chars_per_line + (cell constants 137).2 ∧
    (∀ j, cell constants j = cell constants 137 → j = 137) :=
  have h := grid_cell_spec constants 137 (by decide) (by decide)
  ⟨h.1, h.2.1, h.2.2.1, h.2.2.2.1, h.2.2.2.2.1⟩

/-- C4: `load_all_unicode_characters` is total and returns the `0xFFFF - 0x0000 + 1 = 65536`
values `0, 1, .., 0xFFFF`: its `k`-th element is `k`, it is strictly ascending, without
duplicates, starts at `0x0000` and ends at `0xFFFF`; it is what the loop yields for the
bounds `0x0000` and `0xFFFF`.  More generally, for `high < 2 ^ 32 - 1` the loop over
`[low, high]` terminates (any large enough bound on the number of loop tests gives the same
result) with a strictly ascending list without duplicates, which for `low ≤ high` has
exactly `high - low + 1` elements, the `k`-th being `low + k`, first `low`, last `high`, and
which is empty for `low > high`. -/
theorem load_all_unicode_characters_enumerates (fuel low high : Nat)
    (hhigh : high < 2 ^ 32 - 1) (hpos : 0 < fuel) (hfuel : high + 2 ≤ fuel + low) :
    (load_all_unicode_characters.length = 0xFFFF - 0x0000 + 1 ∧
      (∀ k, k < 65536 → load_all_unicode_characters[k]? = some k) ∧
      List.Pairwise (fun a b => a < b) load_all_unicode_characters ∧
      load_all_unicode_characters.Nodup ∧
      load_all_unicode_characters.head? = some 0x0000 ∧
      load_all_unicode_characters.getLast? = some 0xFFFF ∧
      (∀ f, 65537 ≤ f → enumerate f 0x0000 0xFFFF = some load_all_unicode_characters)) ∧
    ∃ l, enumerate fuel low high = some l ∧
      List.Pairwise (fun a b => a < b) l ∧
      l.Nodup ∧
      (low ≤ high →
        l.length = high - low + 1 ∧
        (∀ k, k ≤ high - low → l[k]? = some (low + k)) ∧
        l.head? = some low ∧
        l.getLast? = some high) ∧
      (high < low → l = []) := by
  refine ⟨⟨?_, ?_, ?_, ?_, ?_, ?_, ?_⟩, List.range' low (high + 1 - low),
    enumerate_eq fuel low high hhigh hpos hfuel, List.pairwise_lt_range' _ _,
    List.nodup_range' _ _, ?_, ?_⟩
  · rw [load_all_unicode_characters_length]
  · intro k hk
    rw [load_all_unicode_characters_eq]
    exact List.getElem?_range hk
  · rw [load_all_unicode_characters_eq, List.range_eq_range']
    exact List.pairwise_lt_range' _ _
  · rw [load_all_unicode_characters_eq]
    exact List.nodup_range _
  · rw [load_all_unicode_characters_eq, List.range_eq_range', List.head?_range']
    simp
  · rw [load_all_unicode_characters_eq, List.range_eq_range', List.getLast?_range']
    simp
  · intro f hf
    rw [enumerate_eq f 0 0xFFFF (by norm_num) (by omega) (by omega),
      load_all_unicode_characters_eq, List.range_eq_range']
  · intro hle
    refine ⟨by rw [List.length_range']; omega, ?_, ?_, ?_⟩
    · intro k hk
      rw [List.getElem?_range' low 1 (by omega : k < high + 1 - low)]
      simp
    · rw [List.head?_range', if_neg (by omega)]
    · rw [List.getLast?_range', if_neg (by omega)]
      congr 1
      omega
  · intro hlt
    have h0 : high + 1 - low = 0 := by omega
    rw [h0]
    rfl

/-- Witness of C4 at the bounds `[3, 5]` with at most ten loop tests. -/
theorem load_all_unicode_characters_enumerates_witness :
    ∃ l, enumerate 10 3 5 = some l ∧
      List.Pairwise (fun a b => a < b) l ∧
      l.Nodup ∧
      (3 ≤ 5 →
        l.length = 5 - 3 + 1 ∧
        (∀ k, k ≤ 5 - 3 → l[k]? = some (3 + k)) ∧
        l.head? = some 3 ∧
        l.getLast? = some 5) ∧
      (5 < 3 → l = []) :=
  (load_all_unicode_characters_enumerates 10 3 5 (by decide) (by decide) (by decide)).2

/-- C5: with `x = margin_left + col * char_width` and
`y = page_height - margin_top - line * line_height` as computed in `main` (over exact
arithmetic), for `char_width > 0` and `line_height > 0`: `x` is strictly increasing in
`col`, `y` is strictly decreasing in `line`, row 0 has `y = page_height - margin_top` and
column 0 has `x = margin_left`. -/
theorem placement_monotone (L : Layout) (hw : 0 < L.char_width) (hh : 0 < L.line_height) :
    (∀ col1 col2 : Nat, col1 < col2 → x_of L col1 < x_of L col2) ∧
    (∀ line1 line2 : Nat, line1 < line2 → y_of L line2 < y_of L line1) ∧
    y_of L 0 = L.page_height - L.margin_top ∧
    x_of L 0 = L.margin_left := by
  refine ⟨?_, ?_, ?_, ?_⟩
  · intro col1 col2 h
    have hc : (col1 : ℚ) < (col2 : ℚ) := by exact_mod_cast h
    unfold x_of
    nlinarith [mul_lt_mul_of_pos_right hc hw]
  · intro line1 line2 h
    have hc : (line1 : ℚ) < (line2 : ℚ) := by exact_mod_cast h
    unfold y_of
    nlinarith [mul_lt_mul_of_pos_right hc hh]
  · simp [y_of]
  · simp [x_of]

/-- Witness of C5: the constants of the program. -/
theorem placement_monotone_witness :
    (∀ col1 col2 : Nat, col1 < col2 → x_of constants col1 < x_of constants col2) ∧
    (∀ line1 line2 : Nat, line1 < line2 → y_of constants line2 < y_of constants line1) ∧
    y_of constants 0 = constants.page_height - constants.margin_top ∧
    x_of constants 0 = constants.margin_left :=
  placement_monotone constants (by norm_num [constants]) (by norm_num [constants])

/-- C6: the constants of the program are all positive, `chars_per_line ≤ chars_per_page`,
`margin_left + chars_per_line * char_width ≤ page_width` and
`margin_top + ⌈chars_per_page / chars_per_line⌉ * line_height ≤ page_height`; and for every
within-page index `i < 200` the placement computed by `main` satisfies `margin_left ≤ x`,
`x + char_width ≤ page_width` and
`0 ≤ page_height - margin_top - (⌈200 / 10⌉ - 1) * line_height ≤ y ≤ page_height - margin_top`. -/
theorem constants_fit_page (i : Nat) (hi : i < constants.chars_per_page) :
    (0 < constants.chars_per_page ∧ 0 < constants.chars_per_line ∧
      0 < constants.page_width ∧ 0 < constants.page_height ∧
      0 < constants.margin_left ∧ 0 < constants.margin_top ∧
      0 < constants.char_width ∧ 0 < constants.line_height) ∧
    constants.chars_per_line ≤ constants.chars_per_page ∧
    constants.margin_left + (constants.chars_per_line : ℚ) * constants.char_width
      ≤ constants.page_width ∧
    constants.margin_top +
        (⌈(constants.chars_per_page : ℚ) / (constants.chars_per_line : ℚ)⌉₊ : ℚ) *
          constants.line_height
      ≤ constants.page_height ∧
    constants.margin_left ≤ x_of constants (cell constants i).2 ∧
    x_of constants (cell constants i).2 + constants.char_width ≤ constants.page_width ∧
    0 ≤ constants.page_height - constants.margin_top -
        ((⌈(constants.chars_per_page : ℚ) / (constants.chars_per_line : ℚ)⌉₊ - 1 : Nat) : ℚ) *
          constants.line_height ∧
    constants.page_height - constants.margin_top -
        ((⌈(constants.chars_per_page : ℚ) / (constants.chars_per_line : ℚ)⌉₊ - 1 : Nat) : ℚ) *
          constants.line_height
      ≤ y_of constants (cell constants i).1 ∧
    y_of constants (cell constants i).1 ≤ constants.page_height - constants.margin_top := by
  have hceil : ⌈((200 : Nat) : ℚ) / ((10 : Nat) : ℚ)⌉₊ = 20 := by
    have : ((200 : Nat) : ℚ) / ((10 : Nat) : ℚ) = ((20 : Nat) : ℚ) := by norm_num
    rw [this, Nat.ceil_natCast]
  have hi2 : i < 200 := hi
  have hcol : i % 10 ≤ 9 := by omega
  have hline : i / 10 ≤ 19 := by omega
  have hcolq : ((i % 10 : Nat) : ℚ) ≤ 9 := by exact_mod_cast hcol
  have hlineq : ((i / 10 : Nat) : ℚ) ≤ 19 := by exact_mod_cast hline
  have hcol0 : (0 : ℚ) ≤ ((i % 10 : Nat) : ℚ) := Nat.cast_nonneg _
  have hline0 : (0 : ℚ) ≤ ((i / 10 : Nat) : ℚ) := Nat.cast_nonneg _
  simp only [constants, x_of, y_of, cell, hceil]
  refine ⟨⟨by norm_num, by norm_num, by norm_num, by norm_num, by norm_num, by norm_num,
    by norm_num, by norm_num⟩, by norm_num, by norm_num, by norm_num, ?_, ?_, by norm_num,
    ?_, ?_⟩
  · linarith
  · linarith
  · push_cast; linarith
  · linarith

/-- Witness of C6: the last within-page index, 199. -/
theorem constants_fit_page_witness :
    constants.margin_left ≤ x_of constants (cell constants 199).2 ∧
    x_of constants (cell constants 199).2 + constants.char_width ≤ constants.page_width ∧
    y_of constants (cell constants 199).1 ≤ constants.page_height - constants.margin_top :=
  have h := constants_fit_page 199 (by decide)
  ⟨h.2.2.2.2.1, h.2.2.2.2.2.1, h.2.2.2.2.2.2.2.2⟩

/-- C7: if the trace of `main` contains a failed `HPDF_AddPage` for page `k`, then
`k < num_pages`, the pages `0 .. k - 1` were created before it, the failed call is followed
by the release of the document and by nothing else (no further page, no paint, no save),
no call before it failed, `HPDF_SaveToFile` is not called at all, and `main` returns 1. -/
theorem addpage_failure_aborts (env : Env) (k : Nat)
    (hfail : Call.AddPage k false ∈ (main env).trace) :
    k < num_pages load_all_unicode_characters.length constants.chars_per_page ∧
    (main env).outcome = Outcome.returned 1 ∧
    (∀ b, Call.SaveToFile b ∉ (main env).trace) ∧
    ∃ pre, (main env).trace = pre ++ [Call.AddPage k false, Call.Free] ∧
      (∀ j, j < k → Call.AddPage j true ∈ pre) ∧
      (∀ c ∈ pre, is_failure c = false ∧ c ≠ Call.Free ∧ ∀ b, c ≠ Call.SaveToFile b) := by
  unfold main at hfail ⊢
  rcases main_with_cases constants load_all_unicode_characters env with
    ⟨_, h⟩ | ⟨_, _, h⟩ | ⟨_, _, _, h⟩ | ⟨_, _, _, pages, hp, h⟩ |
    ⟨_, _, _, pre, k1, hpre, hk1, _, hprev, h⟩ | ⟨_, _, _, pages, hp, _, h⟩
  · rw [h] at hfail; simp at hfail
  · rw [h] at hfail; simp at hfail
  · rw [h] at hfail; simp at hfail
  · rw [h] at hfail
    simp only [List.mem_append, List.mem_cons, List.mem_singleton, List.not_mem_nil,
      or_false, reduceCtorEq, false_or] at hfail
    have := hp _ hfail
    simp [is_page_call] at this
  · rw [h] at hfail ⊢
    simp only [List.mem_append, List.mem_cons, List.mem_singleton, List.not_mem_nil,
      or_false, reduceCtorEq, false_or, Call.AddPage.injEq, and_true] at hfail
    have hk : k = k1 := by
      rcases hfail with hmem | heq
      · have := hpre _ hmem
        simp [is_page_call] at this
      · exact heq
    subst hk
    have hsetup : ∀ c ∈ [Call.New true, Call.LoadTTFontFromFile true, Call.GetFont true] ++ pre,
        is_failure c = false ∧ c ≠ Call.Free ∧ ∀ b, c ≠ Call.SaveToFile b := by
      intro c hc
      rcases List.mem_append.mp hc with hc | hc
      · simp only [List.mem_cons, List.mem_singleton, List.not_mem_nil, or_false] at hc
        rcases hc with hc | hc | hc <;> subst hc <;> simp [is_failure]
      · have := hpre c hc
        refine ⟨not_failure_of_page_call c this, ?_, ?_⟩
        · intro hcf; subst hcf; simp [is_page_call] at this
        · intro b hcf; subst hcf; simp [is_page_call] at this
    refine ⟨hk1, rfl, ?_, _, rfl, ?_, hsetup⟩
    · intro b hb
      simp only [List.mem_append, List.mem_cons, List.mem_singleton, List.not_mem_nil,
        or_false, reduceCtorEq, false_or] at hb
      exact (hsetup _ (List.mem_append_right _ hb)).2.2 b rfl
    · intro j hj
      exact List.mem_append_right _ (hprev j hj).2
  · rw [h] at hfail
    simp only [List.mem_append, List.mem_cons, List.mem_singleton, List.not_mem_nil,
      or_false, reduceCtorEq, false_or] at hfail
    have := hp _ hfail
    simp [is_page_call] at this

/-- Witness of C7: `HPDF_AddPage` fails for page 0. -/
theorem addpage_failure_aborts_witness :
    Call.AddPage 0 false ∈ (main (page_fail_env 0)).trace ∧
    (main (page_fail_env 0)).outcome = Outcome.returned 1 ∧
    (∀ b, Call.SaveToFile b ∉ (main (page_fail_env 0)).trace) :=
  have h : Call.AddPage 0 false ∈ (main (page_fail_env 0)).trace := by
    rw [main_page_fail_env_zero]; simp
  ⟨h, (addpage_failure_aborts (page_fail_env 0) 0 h).2.1,
    (addpage_failure_aborts (page_fail_env 0) 0 h).2.2.1⟩

/-- C8: `main` returns 0 exactly when its trace contains a successful `HPDF_New`,
`HPDF_LoadTTFontFromFile`, `HPDF_GetFont`, `HPDF_AddPage` for every page `k < num_pages`,
and `HPDF_SaveToFile`.  If any of these calls fails, `main` returns 1, the failed call is
the first failure of the run, and nothing but the release of the document (none after a
failed `HPDF_New`) follows it.  In an environment in which every character is converted,
`main` returns 0 exactly when the environment lets all these calls succeed, and returns 1
otherwise. -/
theorem main_exit_code (env : Env) :
    ((main env).outcome = Outcome.returned 0 ↔
      Call.New true ∈ (main env).trace ∧
      Call.LoadTTFontFromFile true ∈ (main env).trace ∧
      Call.GetFont true ∈ (main env).trace ∧
      (∀ k, k < num_pages load_all_unicode_characters.length constants.chars_per_page →
        Call.AddPage k true ∈ (main env).trace) ∧
      Call.SaveToFile true ∈ (main env).trace) ∧
    (∀ c ∈ (main env).trace, is_failure c = true →
      (main env).outcome = Outcome.returned 1 ∧
      ∃ pre, ((main env).trace = pre ++ [c] ∨ (main env).trace = pre ++ [c, Call.Free]) ∧
        ∀ d ∈ pre, is_failure d = false) ∧
    ((∀ ch ∈ load_all_unicode_characters, (env.to_bytes ch).isSome = true) →
      ((main env).outcome = Outcome.returned 0 ↔
        env.new_ok = true ∧ env.load_ok = true ∧ env.getfont_ok = true ∧
        (∀ k, k < num_pages load_all_unicode_characters.length constants.chars_per_page →
          env.addpage_ok k = true) ∧
        env.save_ok = true) ∧
      ((main env).outcome = Outcome.returned 0 ∨ (main env).outcome = Outcome.returned 1)) := by
  have hsetup : ∀ (l : List Call), (∀ c ∈ l, is_page_call c = true) →
      ∀ c ∈ [Call.New true, Call.LoadTTFontFromFile true, Call.GetFont true] ++ l,
        is_failure c = false := by
    intro l hl c hc
    rcases List.mem_append.mp hc with hc | hc
    · simp only [List.mem_cons, List.mem_singleton, List.not_mem_nil, or_false] at hc
      rcases hc with hc | hc | hc <;> subst hc <;> simp [is_failure]
    · exact not_failure_of_page_call c (hl c hc)
  have hunc := main_with_not_uncaught constants load_all_unicode_characters env
  unfold main
  rcases main_with_cases constants load_all_unicode_characters env with
    ⟨e1, h⟩ | ⟨e1, e2, h⟩ | ⟨e1, e2, e3, h⟩ | ⟨e1, e2, e3, pages, hp, h⟩ |
    ⟨e1, e2, e3, pre, k1, hpre, hk1, hk2, hprev, h⟩ | ⟨e1, e2, e3, pages, hp, hall, h⟩
  · rw [h]
    refine ⟨by simp, ?_, fun _ => ⟨by simp [e1], by simp⟩⟩
    intro c hc hf
    simp only [List.mem_singleton] at hc
    subst hc
    exact ⟨rfl, [], Or.inl rfl, by simp⟩
  · rw [h]
    refine ⟨by simp, ?_, fun _ => ⟨by simp [e2], by simp⟩⟩
    intro c hc hf
    simp only [List.mem_cons, List.mem_singleton, List.not_mem_nil, or_false] at hc
    rcases hc with hc | hc | hc <;> subst hc
    · simp [is_failure] at hf
    · exact ⟨rfl, [Call.New true], Or.inr rfl, by simp [is_failure]⟩
    · simp [is_failure] at hf
  · rw [h]
    refine ⟨by simp, ?_, fun _ => ⟨by simp [e3], by simp⟩⟩
    intro c hc hf
    simp only [List.mem_cons, List.mem_singleton, List.not_mem_nil, or_false] at hc
    rcases hc with hc | hc | hc | hc <;> subst hc
    · simp [is_failure] at hf
    · simp [is_failure] at hf
    · exact ⟨rfl, [Call.New true, Call.LoadTTFontFromFile true], Or.inr rfl,
        by simp [is_failure]⟩
    · simp [is_failure] at hf
  · rw [h] at hunc ⊢
    refine ⟨⟨by simp, fun hx => ?_⟩, ?_, fun hconv => absurd rfl (hunc hconv)⟩
    · have h5 := hx.2.2.2.2
      have := hsetup pages hp _ h5
      have hq : is_page_call (Call.SaveToFile true) = true := by
        rcases List.mem_append.mp h5 with h6 | h6
        · simp at h6
        · exact hp _ h6
      simp [is_page_call] at hq
    · intro c hc hf
      rw [hsetup pages hp c hc] at hf
      exact absurd hf (by simp)
  · rw [h]
    refine ⟨⟨by simp, fun hx => ?_⟩, ?_, fun _ => ⟨⟨by simp, fun hx => ?_⟩, by simp⟩⟩
    · have h5 := hx.2.2.2.2
      simp only [List.mem_append, List.mem_cons, List.mem_singleton, List.not_mem_nil,
        or_false, reduceCtorEq, false_or] at h5
      have := hpre _ h5
      simp [is_page_call] at this
    · intro c hc hf
      rcases List.mem_append.mp hc with hc | hc
      · rw [hsetup pre hpre c hc] at hf
        exact absurd hf (by simp)
      · simp only [List.mem_cons, List.mem_singleton, List.not_mem_nil, or_false] at hc
        rcases hc with hc | hc <;> subst hc
        · exact ⟨rfl, _, Or.inr rfl, hsetup pre hpre⟩
        · simp [is_failure] at hf
    · have := hx.2.2.2.1 k1 hk1
      rw [hk2] at this
      exact absurd this (by simp)
  · rw [h]
    cases hsave : env.save_ok with
    | false =>
      refine ⟨⟨by simp, fun hx => ?_⟩, ?_, fun _ => ⟨by simp, by simp⟩⟩
      · have h5 := hx.2.2.2.2
        simp only [List.mem_append, List.mem_cons, List.mem_singleton, List.not_mem_nil,
          or_false, reduceCtorEq, false_or, Call.SaveToFile.injEq, Bool.true_eq_false] at h5
        have := hp _ h5
        simp [is_page_call] at this
      · intro c hc hf
        rcases List.mem_append.mp hc with hc | hc
        · rw [hsetup pages hp c hc] at hf
          exact absurd hf (by simp)
        · simp only [List.mem_cons, List.mem_singleton, List.not_mem_nil, or_false] at hc
          rcases hc with hc | hc <;> subst hc
          · exact ⟨by simp, _, Or.inr rfl, hsetup pages hp⟩
          · simp [is_failure] at hf
    | true =>
      refine ⟨⟨fun _ => ⟨by simp, by simp, by simp, fun k hk => ?_, by simp⟩, fun _ => by simp⟩,
        ?_, fun _ => ⟨⟨fun _ => ⟨e1, e2, e3, fun k hk => (hall k hk).1, rfl⟩,
          fun _ => by simp⟩, by simp⟩⟩
      · exact List.mem_append_left _ (List.mem_append_right _ (hall k hk).2)
      · intro c hc hf
        rcases List.mem_append.mp hc with hc | hc
        · rw [hsetup pages hp c hc] at hf
          exact absurd hf (by simp)
        · simp only [List.mem_cons, List.mem_singleton, List.not_mem_nil, or_false] at hc
          rcases hc with hc | hc <;> subst hc <;> simp [is_failure] at hf

/-- Witness of C8: the program returns 0 in the sample environment `ok_env`. -/
theorem main_exit_code_witness : (main ok_env).outcome = Outcome.returned 0 :=
  ((main_exit_code ok_env).2.2 (ok_env_conv _)).1.mpr
    ⟨rfl, rfl, rfl, fun _ _ => rfl, rfl⟩

/-- C10, the claim as stated fails: in the sample environment `strict_env` every backend
call succeeds and the conversion fails on the surrogate `0xD800`, a code point of the
enumerated range, while `0xE000` is converted.  The run does not continue after `0xD800`:
the exception leaves `main`, exactly the code points below `0xD800` are painted (55296
texts; the text of `0xE000` is not among them), and neither `HPDF_SaveToFile` nor
`HPDF_Free` is called. -/
theorem conversion_failure_not_skipped :
    0xD800 ∈ load_all_unicode_characters ∧
    strict_env.to_bytes 0xD800 = none ∧
    0xE000 ∈ load_all_unicode_characters ∧
    strict_env.to_bytes 0xE000 = some (utf8_encode 0xE000) ∧
    (main strict_env).outcome = Outcome.uncaught ∧
    painted_texts (main strict_env).trace = (List.range 0xD800).map (text_of strict_env) ∧
    (painted_texts (main strict_env).trace).length = 55296 ∧
    utf8_encode 0xE000 ∉ painted_texts (main strict_env).trace ∧
    (∀ b, Call.SaveToFile b ∉ (main strict_env).trace) ∧
    Call.Free ∉ (main strict_env).trace := by
  have hrun := main_throw_run strict_env 0xD800 surrogate_mem rfl strict_env_first
    rfl rfl rfl (fun _ _ => rfl)
  have hcalls := throw_trace_page_calls strict_env constants load_all_unicode_characters
    (0xD800 / constants.chars_per_page) (0xD800 % constants.chars_per_page)
  have hpaint := throw_trace_painted strict_env 0xD800 (by decide)
  rw [hrun]
  refine ⟨surrogate_mem, rfl, ?_, rfl, rfl, hpaint, ?_, ?_, ?_, ?_⟩
  · rw [load_all_unicode_characters_eq]
    exact List.mem_range.mpr (by decide)
  · show (painted_texts _).length = 55296
    rw [hpaint, List.length_map, List.length_range]
  · show utf8_encode 0xE000 ∉ painted_texts _
    rw [hpaint]
    intro hmem
    obtain ⟨c, hc, heq⟩ := List.mem_map.mp hmem
    exact strict_env_text_ne c (List.mem_range.mp hc) heq
  · intro b hb
    rcases List.mem_append.mp hb with h | h
    · simp at h
    · have := hcalls _ h
      simp [is_page_call] at this
  · intro hb
    rcases List.mem_append.mp hb with h | h
    · simp at h
    · have := hcalls _ h
      simp [is_page_call] at this

/-- C10 as amended: let `ch` be the first code point of the enumerated range whose
conversion fails, on a run where set-up and the page creations up to the page of `ch`
succeed.  No paint command is issued for `ch`, and the run ends there: the exception leaves
`main` (no exit code is returned), the trace is the set-up, the complete pages before the
page of `ch`, the set-up of that page and the paints of its indices below
`ch mod chars_per_page`; the texts painted are exactly those of the code points below `ch`;
neither `HPDF_SaveToFile` nor `HPDF_Free` is called. -/
theorem conversion_failure_terminates (env : Env) (ch : Nat)
    (hch : ch ∈ load_all_unicode_characters)
    (hnone : env.to_bytes ch = none)
    (hfirst : ∀ c, c < ch → (env.to_bytes c).isSome = true)
    (hnew : env.new_ok = true) (hload : env.load_ok = true) (hfont : env.getfont_ok = true)
    (hpages : ∀ k, k ≤ ch / constants.chars_per_page → env.addpage_ok k = true) :
    (main env).outcome = Outcome.uncaught ∧
    (main env).trace =
      [Call.New true, Call.LoadTTFontFromFile true, Call.GetFont true] ++
        ((List.range (ch / constants.chars_per_page)).flatMap
            (full_page env constants load_all_unicode_characters) ++
          (page_setup constants (ch / constants.chars_per_page) ++
            paints env constants load_all_unicode_characters
              (ch / constants.chars_per_page) 0 (ch % constants.chars_per_page))) ∧
    painted_texts (main env).trace = (List.range ch).map (text_of env) ∧
    (∀ b, Call.SaveToFile b ∉ (main env).trace) ∧
    Call.Free ∉ (main env).trace := by
  have hlt : ch < 65536 := by
    rw [load_all_unicode_characters_eq] at hch
    exact List.mem_range.mp hch
  have hcalls := throw_trace_page_calls env constants load_all_unicode_characters
    (ch / constants.chars_per_page) (ch % constants.chars_per_page)
  rw [main_throw_run env ch hch hnone hfirst hnew hload hfont hpages]
  refine ⟨rfl, rfl, throw_trace_painted env ch hlt, ?_, ?_⟩
  · intro b hb
    rcases List.mem_append.mp hb with h | h
    · simp at h
    · have := hcalls _ h
      simp [is_page_call] at this
  · intro hb
    rcases List.mem_append.mp hb with h | h
    · simp at h
    · have := hcalls _ h
      simp [is_page_call] at this

/-- Witness of C10 as amended: the sample environment `strict_env` and the code point
`0xD800`. -/
theorem conversion_failure_terminates_witness :
    (main strict_env).outcome = Outcome.uncaught ∧
    painted_texts (main strict_env).trace = (List.range 0xD800).map (text_of strict_env) :=
  have h := conversion_failure_terminates strict_env 0xD800 surrogate_mem rfl
    strict_env_first rfl rfl rfl (fun _ _ => rfl)
  ⟨h.1, h.2.2.1⟩

end TextImport
